import Mathlib

/-!
# Shedjs core: shallow embedding and verification

This file embeds the reconciliation (diff/patch) engine and the delegation-based
event registry of the Shedjs framework (`src/dom.js` — classes `Dom` and `Event`)
and proves/refutes the specified properties.

Modelling conventions:
* JS dynamic values in attribute position are `AVal`; values in children
  position are `JVal`.  Object identity (JS `===` on objects/functions) is
  modelled with numeric heap tokens.
* The native DOM is the inductive `DNode`; `document`/registry state for the
  event layer is `EvState`.
* Machine-irrelevant effects (console logging, MutationObserver plumbing) are
  dropped; everything observable by the claims (structural mutations, listener
  attachment, dispatch order, thrown errors) is modelled explicitly.
* Fallible operations return `Except String _`; the string is the error class.
-/

namespace Shed

/-- JS values appearing in attribute position.  `fn` and `obj` carry a heap
token modelling reference identity; object *fields* are restricted to the
string→string maps the framework feeds to `Object.assign(element.style, ·)`. -/
inductive AVal where
  | s (v : String)
  | n (v : Int)
  | b (v : Bool)
  | fn (tok : Nat)
  | null
  | obj (tok : Nat) (fields : List (String × String))
deriving Repr, DecidableEq

/-- JS strict equality `===` on `AVal`: value equality for primitives,
reference (token) equality for functions and objects, no cross-type coercion. -/
def jsEqA : AVal → AVal → Bool
  | .s a, .s b => a == b
  | .n a, .n b => a == b
  | .b a, .b b => a == b
  | .fn a, .fn b => a == b
  | .null, .null => true
  | .obj a _, .obj b _ => a == b
  | _, _ => false

/-- JS `String(·)` coercion of an attribute value. -/
def aToStr : AVal → String
  | .s v => v
  | .n v => toString v
  | .b v => if v then "true" else "false"
  | .fn tok => "function#" ++ toString tok
  | .null => "null"
  | .obj _ _ => "[object Object]"

/-- JS values appearing in children position of a virtual node.
`vnode` is an object carrying a `tag`; `badObj` is a non-null object without a
`tag` property (reaching `createFromVNode` it raises `Invalid VNode`).  The
`key` field produced by `Dom.h` is never read by the diffing code (which reads
`attrs.key`), so it is not modelled. -/
inductive JVal where
  | vnode (tag : String) (attrs : List (String × AVal)) (children : List JVal)
  | badObj (tok : Nat)
  | str (v : String)
  | num (v : Int)
  | null

/-- JS `typeof`. -/
def typeofJ : JVal → String
  | .vnode _ _ _ => "object"
  | .badObj _ => "object"
  | .null => "object"
  | .str _ => "string"
  | .num _ => "number"

/-- JS `String(·)` coercion of a child value. -/
def jsToStr : JVal → String
  | .str v => v
  | .num v => toString v
  | .null => "null"
  | .vnode _ _ _ => "[object Object]"
  | .badObj _ => "[object Object]"

/-- JS truthiness of a child value. -/
def jsTruthy : JVal → Bool
  | .null => false
  | .str v => v != ""
  | .num v => v != 0
  | _ => true

/-- `node.tag` as the JS read of a possibly-missing property
(`none` = `undefined`). -/
def tagOf : JVal → Option String
  | .vnode t _ _ => some t
  | _ => none

/-- `node.attrs` with the `|| {}` / optional-chaining default. -/
def attrsOf : JVal → List (String × AVal)
  | .vnode _ a _ => a
  | _ => []

/-- `node.children || []`. -/
def childrenOf : JVal → List JVal
  | .vnode _ _ c => c
  | _ => []

/-- `vnode.attrs?.key` (`none` = `undefined`). -/
def keyAttr (v : JVal) : Option AVal :=
  ((attrsOf v).find? (·.1 == "key")).map (·.2)

/-- `node && typeof node === 'object' && node.tag === 'TEXT_NODE'`. -/
def isTextNodeJ : JVal → Bool
  | .vnode t _ _ => t == "TEXT_NODE"
  | _ => false

/-- `String(node.children?.[0] ?? '')` for a text-marker node (the `??`
turns both a missing slot and a literal `null` into `''`). -/
def textSlot : JVal → String
  | .vnode _ _ cs =>
      match cs.head? with
      | none => ""
      | some .null => ""
      | some v => jsToStr v
  | _ => ""

/-- `Dom.hasChanged(node1, node2)` — transliterated from `src/dom.js`. -/
def hasChanged (node1 node2 : JVal) : Bool :=
  -- Different types
  if typeofJ node1 != typeofJ node2 then true
  -- Primitive values
  else if typeofJ node1 == "string" || typeofJ node1 == "number" then
    jsToStr node1 != jsToStr node2
  -- Handle TEXT_NODE cases
  else if isTextNodeJ node1 || isTextNodeJ node2 then
    (if isTextNodeJ node1 then textSlot node1 else "") !=
      (if isTextNodeJ node2 then textSlot node2 else "")
  -- Null checks
  else if node1 matches .null then true
  else if node2 matches .null then true
  else
    -- Different tags
    if tagOf node1 != tagOf node2 then true
    else
      -- Different keys (only when both declare one)
      match keyAttr node1, keyAttr node2 with
      | some k1, some k2 => !(jsEqA k1 k2)
      | _, _ => false

/-- `key.startsWith(pre)`, over the character lists (kernel-evaluable,
unlike `String.startsWith`). -/
def jsStartsWith (s pre : String) : Bool := pre.data.isPrefixOf s.data

/-- ASCII lowercasing of one character (the `on*` keys the framework
lowercases are ASCII). -/
def lowerChar (c : Char) : Char :=
  if 'A' ≤ c ∧ c ≤ 'Z' then Char.ofNat (c.toNat + 32) else c

/-- `key.toLowerCase()` for ASCII keys. -/
def jsToLower (s : String) : String := ⟨s.data.map lowerChar⟩

/-- A native DOM node: a text leaf or an element.  An element carries the
four mutable facets the embedded code touches: settable properties, HTML
attributes, the `className` field and the `style` object. -/
inductive DNode where
  | text (s : String)
  | elem (tag : String) (props : List (String × AVal))
      (attrs : List (String × String)) (className : String)
      (style : List (String × String)) (children : List DNode)

/-- Built-in settable element properties, modelling the `key in element`
check for a fresh element (`class` deliberately absent: it is an attribute,
not a property). -/
def nativeProps : List String :=
  ["id", "value", "checked", "disabled", "selected", "title", "hidden",
   "type", "placeholder", "href", "className"]

/-- Assoc-list write with JS property-set semantics: overwrite in place,
else append. -/
def setAssoc {α : Type} (l : List (String × α)) (k : String) (v : α) :
    List (String × α) :=
  if l.any (·.1 == k) then l.map (fun e => if e.1 == k then (k, v) else e)
  else l ++ [(k, v)]

/-- Assoc-list lookup (`none` = `undefined`). -/
def getAssoc {α : Type} (l : List (String × α)) (k : String) : Option α :=
  (l.find? (·.1 == k)).map (·.2)

/-- `Dom.setAttribute(element, key, value)` on an element's facets,
transliterated from `src/dom.js` (the `instanceof HTMLElement` guard is the
constructor pattern-match).  Text nodes are untouched. -/
def setAttribute (el : DNode) (key : String) (value : AVal) : DNode :=
  match el with
  | .text s => .text s
  | .elem tag props attrs className style children =>
    if jsStartsWith key "on" && (value matches .fn _) then
      -- element[key.toLowerCase()] = value
      .elem tag (setAssoc props (jsToLower key) value) attrs className style children
    else if key == "className" then
      .elem tag props attrs (aToStr value) style children
    else if key == "style" then
      match value with
      | .obj _ fields =>
          -- Object.assign(element.style, value)
          .elem tag props attrs className
            (fields.foldl (fun st f => setAssoc st f.1 f.2) style) children
      | _ => .elem tag props attrs className style children
    else if nativeProps.contains key || props.any (·.1 == key) then
      -- key in element
      .elem tag (setAssoc props key value) attrs className style children
    else
      -- element.setAttribute(key, value) coerces the value to a string
      .elem tag props (setAssoc attrs key (aToStr value)) className style children

/-- One removal step of `Dom.updateAttributes` for a key present in
`oldAttrs` but absent from `newAttrs`. -/
def removeOldAttr (el : DNode) (key : String) : DNode :=
  match el with
  | .text s => .text s
  | .elem tag props attrs className style children =>
    if key == "className" then
      .elem tag props attrs "" style children
    else if key == "checked" || key == "disabled" || key == "selected" then
      .elem tag (setAssoc props key (.b false)) attrs className style children
    else if jsStartsWith key "on" then
      .elem tag (setAssoc props (jsToLower key) .null) attrs className style children
    else
      .elem tag props (attrs.filter (·.1 != key)) className style children

/-- `Dom.updateAttributes(element, newAttrs, oldAttrs)`: remove stale keys,
then set every key whose value differs from the old one by `!==`. -/
def updateAttributes (el : DNode) (newAttrs oldAttrs : List (String × AVal)) :
    DNode :=
  let afterRemove := oldAttrs.foldl
    (fun e kv =>
      if newAttrs.any (·.1 == kv.1) then e else removeOldAttr e kv.1) el
  newAttrs.foldl
    (fun e kv =>
      match getAssoc oldAttrs kv.1 with
      | some ov => if jsEqA ov kv.2 then e else setAttribute e kv.1 kv.2
      | none => setAttribute e kv.1 kv.2)
    afterRemove

/-- Children of a native node (`[]` for a text leaf). -/
def kidsOfD : DNode → List DNode
  | .text _ => []
  | .elem _ _ _ _ _ k => k

/-- Replace the children of a native element. -/
def withKids : DNode → List DNode → DNode
  | .text s, _ => .text s
  | .elem t p a c st _, k => .elem t p a c st k

/-- `insertBefore` at a positional index. -/
def insertAt (l : List DNode) (i : Nat) (d : DNode) : List DNode :=
  l.take i ++ d :: l.drop i

mutual
/-- `Dom.createFromVNode(vnode)`: materialize a virtual child into a native
node.  `null` raises a `TypeError` (reading `.tag` of `null`); a tagless
object raises `Invalid VNode`. -/
def createFromVNode : JVal → Except String DNode
  | .str v => .ok (.text v)
  | .num v => .ok (.text (toString v))
  | .null => .error "TypeError: cannot read tag of null"
  | .badObj _ => .error "Invalid VNode: missing tag property"
  | .vnode tag attrs children =>
    if tag == "TEXT_NODE" then
      -- sole child slot, coerced to a printable string ('' when not printable)
      let textContent : JVal := (children.head?).getD (.str "")
      let safeText : String :=
        match textContent with
        | .str s => s
        | .num n => toString n
        | _ => ""
      .ok (.text safeText)
    else
      let base := attrs.foldl (fun e kv => setAttribute e kv.1 kv.2)
        (.elem tag [] [] "" [] [])
      materializeKids base children

/-- The children loop of `createFromVNode`: skip `null`, coerce primitives to
text leaves, recurse on the rest, appending in order. -/
def materializeKids (el : DNode) : List JVal → Except String DNode
  | [] => .ok el
  | c :: cs =>
    match c with
    | .null => materializeKids el cs
    | .str v => materializeKids (withKids el (kidsOfD el ++ [.text v])) cs
    | .num v => materializeKids (withKids el (kidsOfD el ++ [.text (toString v)])) cs
    | c =>
      match createFromVNode c with
      | .error e => .error e
      | .ok d => materializeKids (withKids el (kidsOfD el ++ [d])) cs
end

/-- The `normalizeChild` closure of `Dom.patchChildren`: primitives and `null`
become text-marker nodes; objects pass through. -/
def normalizeChild : JVal → JVal
  | .null => .vnode "TEXT_NODE" [] [.str ""]
  | .str v => .vnode "TEXT_NODE" [] [.str v]
  | .num v => .vnode "TEXT_NODE" [] [.str (toString v)]
  | c => c

mutual
/-- Size measure for the `patchChildren` termination argument: text-marker
nodes never recurse, so they weigh `1` like primitives. -/
def jsize : JVal → Nat
  | .vnode t _ cs => if t == "TEXT_NODE" then 1 else 2 + jsizeList cs
  | _ => 1

/-- Sum of `jsize` over a children list. -/
def jsizeList : List JVal → Nat
  | [] => 0
  | c :: cs => jsize c + jsizeList cs
end

theorem jsize_pos (v : JVal) : 1 ≤ jsize v := by
  cases v with
  | vnode t a cs => simp only [jsize]; split <;> omega
  | badObj _ => simp [jsize]
  | str _ => simp [jsize]
  | num _ => simp [jsize]
  | null => simp [jsize]

theorem jsize_normalizeChild (c : JVal) : jsize (normalizeChild c) = jsize c := by
  cases c <;> simp [normalizeChild, jsize, jsizeList]

theorem jsizeList_filter_le (p : JVal → Bool) (l : List JVal) :
    jsizeList (l.filter p) ≤ jsizeList l := by
  induction l with
  | nil => simp [jsizeList]
  | cons c cs ih =>
    rw [List.filter_cons]
    by_cases hp : p c = true
    · rw [if_pos hp]; simp only [jsizeList]; omega
    · rw [if_neg hp]; simp only [jsizeList]; omega

theorem jsizeList_map_normalize (l : List JVal) :
    jsizeList (l.map normalizeChild) = jsizeList l := by
  induction l with
  | nil => rfl
  | cons c cs ih => simp [jsizeList, jsize_normalizeChild, ih]

theorem jsize_getElem_le (l : List JVal) (i : Nat) (h : i < l.length) :
    jsize l[i] ≤ jsizeList l := by
  induction l generalizing i with
  | nil => simp at h
  | cons c cs ih =>
    cases i with
    | zero => simp only [List.getElem_cons_zero, jsizeList]; omega
    | succ j =>
      simp only [List.getElem_cons_succ, jsizeList]
      have hj : j < cs.length := by simpa using h
      have := ih j hj
      omega

theorem jsizeList_childrenOf_lt (c : JVal)
    (h : ¬ tagOf c == some "TEXT_NODE") :
    jsizeList (childrenOf c) < jsize c := by
  cases c with
  | vnode t a cs =>
    have ht : t ≠ "TEXT_NODE" := by
      intro he; exact h (by simp [tagOf, he])
    simp only [tagOf, childrenOf, jsize, beq_eq_false_iff_ne.mpr ht]
    simp
  | badObj _ => simp [childrenOf, jsizeList, jsize]
  | str _ => simp [childrenOf, jsizeList, jsize]
  | num _ => simp [childrenOf, jsizeList, jsize]
  | null => simp [childrenOf, jsizeList, jsize]

/-- Result of the `try`-block of `patchChildren`: normal completion or a
thrown exception.  Both carry the parent's (possibly partially mutated)
children plus the count of structural mutations performed so far; on the
exception path the count and the children below a partially-recovered nested
subtree are not tracked further (the catch handler discards them). -/
inductive TryRes where
  | ok (kids : List DNode) (ops : Nat)
  | exn (kids : List DNode) (ops : Nat)

/-- The `while (parent.childNodes.length > normalizedNew.length)` trim loop:
remove the last native child until the lengths agree; also counts removals. -/
def trimKids (kids : List DNode) (n : Nat) : List DNode × Nat :=
  if kids.length > n then
    let r := trimKids kids.dropLast n
    (r.1, r.2 + 1)
  else (kids, 0)
termination_by kids.length
decreasing_by
  simp only [List.length_dropLast]
  omega

/-- The `catch`-block rebuild of `patchChildren`: skip `null`, rematerialize
and append every other entry of the (unnormalized) new list; a materialization
failure here escapes. -/
def rebuildKids : List JVal → Except String (List DNode)
  | [] => .ok []
  | c :: cs =>
    match c with
    | .null => rebuildKids cs
    | c =>
      match createFromVNode c with
      | .error e => .error e
      | .ok d =>
        match rebuildKids cs with
        | .error e => .error e
        | .ok ds => .ok (d :: ds)

mutual
/-- `Dom.patchChildren(parent, newChildren, oldChildren)` — transliterated
from `src/dom.js`.  Returns the parent's new children and the number of
structural native mutations (appends, removals, replacements; exact on
exception-free runs), or an error when the recovery path itself throws. -/
def patchChildren (kids : List DNode) (newChildren oldChildren : List JVal) :
    Except String (List DNode × Nat) :=
  let nNew := (newChildren.map normalizeChild).filter jsTruthy
  let nOld := (oldChildren.map normalizeChild).filter jsTruthy
  let body : TryRes :=
    if nNew.length = 0 then .ok [] kids.length   -- fast path: clear all
    else
      let t := trimKids kids nNew.length
      patchLoop nOld nNew 0 t.1 t.2
  match body with
  | .ok k o => .ok (k, o)
  | .exn k o =>
    match rebuildKids newChildren with
    | .error e => .error e
    | .ok ds => .ok (ds, o + k.length + ds.length)
termination_by
  (jsizeList ((newChildren.map normalizeChild).filter jsTruthy), 1, 0)
decreasing_by
  apply Prod.Lex.right
  apply Prod.Lex.left
  omega

/-- The per-index `for` loop of `patchChildren`. -/
def patchLoop (nOld nNew : List JVal) (i : Nat) (kids : List DNode)
    (ops : Nat) : TryRes :=
  if h : i < nNew.length then
    let newChild := nNew[i]
    let oldChild? := nOld[i]?
    match kids[i]? with
    | none =>
      -- Case 1: new node needs to be added
      match createFromVNode newChild with
      | .error _ => .exn kids ops
      | .ok d => patchLoop nOld nNew (i + 1) (kids ++ [d]) (ops + 1)
    | some domNode =>
      if oldChild?.isNone || hasChanged newChild (oldChild?.getD .null) then
        -- Case 2: nodes are different → replace at i
        match createFromVNode newChild with
        | .error _ => .exn kids ops
        | .ok d => patchLoop nOld nNew (i + 1) (kids.set i d) (ops + 1)
      else if hT : tagOf newChild == some "TEXT_NODE" then
        -- Case 3: text markers already handled by hasChanged
        patchLoop nOld nNew (i + 1) kids ops
      else
        match domNode with
        | .text _ => patchLoop nOld nNew (i + 1) kids ops
        | .elem tg p a cn st dk =>
          -- Case 4: same logical node → update attributes, recurse children
          let el1 := updateAttributes (.elem tg p a cn st dk)
            (attrsOf newChild) (attrsOf (oldChild?.getD .null))
          let nk := ((childrenOf newChild).map normalizeChild).filter jsTruthy
          let ok' := ((childrenOf (oldChild?.getD .null)).map
            normalizeChild).filter jsTruthy
          match patchChildren (kidsOfD el1) nk ok' with
          | .error _ => .exn (kids.set i el1) ops
          | .ok (k', innerOps) =>
            patchLoop nOld nNew (i + 1) (kids.set i (withKids el1 k'))
              (ops + innerOps)
  else .ok kids ops
termination_by (jsizeList nNew, 0, nNew.length - i)
decreasing_by
  all_goals first
  | (apply Prod.Lex.right
     apply Prod.Lex.right
     omega)
  | (apply Prod.Lex.left
     calc jsizeList ((((((childrenOf nNew[i]).map normalizeChild).filter
             jsTruthy).map normalizeChild)).filter jsTruthy)
         ≤ jsizeList ((((childrenOf nNew[i]).map normalizeChild).filter
             jsTruthy).map normalizeChild) := jsizeList_filter_le _ _
       _ = jsizeList (((childrenOf nNew[i]).map normalizeChild).filter
             jsTruthy) := jsizeList_map_normalize _
       _ ≤ jsizeList ((childrenOf nNew[i]).map normalizeChild) :=
           jsizeList_filter_le _ _
       _ = jsizeList (childrenOf nNew[i]) := jsizeList_map_normalize _
       _ < jsize nNew[i] := jsizeList_childrenOf_lt _ (by simpa using hT)
       _ ≤ jsizeList nNew := jsize_getElem_le _ _ h)
end

/-- The `typeof c === 'object' || typeof c === 'string' || typeof c ===
'number'` children filter of `Dom.patch` case 4. -/
def validChild (c : JVal) : Bool :=
  typeofJ c == "object" || typeofJ c == "string" || typeofJ c == "number"

/-- `Dom.patch(parent, newVNode, oldVNode, index)` — transliterated from
`src/dom.js`.  Operates on the parent's children list; returns the updated
list and the number of structural mutations. -/
def patch (kids : List DNode) (newVNode oldVNode : JVal) (index : Nat) :
    Except String (List DNode × Nat) :=
  -- Handle null/undefined cases
  if !jsTruthy oldVNode && !jsTruthy newVNode then .ok (kids, 0)
  -- Case 1: new node added
  else if !jsTruthy oldVNode then
    match createFromVNode newVNode with
    | .error e => .error e
    | .ok d =>
      if index < kids.length then .ok (insertAt kids index d, 1)
      else .ok (kids ++ [d], 1)
  -- Case 2: node removed
  else if !jsTruthy newVNode then
    if index < kids.length then .ok (kids.eraseIdx index, 1)
    else .ok (kids, 0)
  -- Case 3: nodes are different → replace wholesale
  else if hasChanged newVNode oldVNode then
    if index < kids.length then
      match createFromVNode newVNode with
      | .error e => .error e
      | .ok d => .ok (kids.set index d, 1)
    else .ok (kids, 0)
  -- Case 4: same node type → attribute diff plus child reconciliation
  else if (tagOf newVNode).getD "" != "" then
    match kids[index]? with
    | some (.elem tg p a cn st dk) =>
      let el1 := updateAttributes (.elem tg p a cn st dk)
        (attrsOf newVNode) (attrsOf oldVNode)
      let newC := (childrenOf newVNode).filter validChild
      let oldC := (childrenOf oldVNode).filter validChild
      match patchChildren (kidsOfD el1) newC oldC with
      | .error e => .error e
      | .ok (k', ops) => .ok (kids.set index (withKids el1 k'), ops)
    | _ => .ok (kids, 0)
  else .ok (kids, 0)

/-! ## Event delegation registry (`src/dom.js`, class `Event`)

The host document is a list of nodes; each node is a numeric identity plus
the set of selector strings it matches (`el.matches(sel)` ⇔ membership).
Callbacks and listener closures are modelled by numeric heap tokens; `tok`
gives each registered handler's closure its JS function identity, so
`removeEventListener` detaches exactly the closures the handler stored. -/

/-- A document node: identity plus the selectors it matches. -/
structure DocNode where
  nid : Nat
  sels : List String
deriving Repr, DecidableEq

/-- `el.matches(sel)` for the node with identity `n`. -/
def nodeMatches (nodes : List DocNode) (n : Nat) (sel : String) : Bool :=
  match nodes.find? (·.nid == n) with
  | some d => d.sels.contains sel
  | none => false

/-- One `EventHandler` record of the registry. -/
structure Handler where
  id : Nat
  event : String
  selector : String
  cb : Nat
  tok : Nat
  /-- `domListeners` keys: the nodes this handler attached its closure to. -/
  domListeners : List Nat
  windowListener : Bool
deriving Repr, DecidableEq

/-- Registry + document state.  `attachLog` is ghost instrumentation: the
history of every native `addEventListener` call ever made on an element,
never erased (the live attachments are `attached`). -/
structure EvState where
  nodes : List DocNode
  handlers : List Handler
  /-- `_processedItems`: element-seen set, node → event types already bound. -/
  processed : List (Nat × List String)
  /-- live element listeners: (node, event, closure token). -/
  attached : List (Nat × String × Nat)
  /-- live window listeners: (event, closure token). -/
  winAttached : List (String × Nat)
  nextTok : Nat
  attachLog : List (Nat × String)
deriving Repr, DecidableEq

/-- `_domEvents`. -/
def domEvents : List String :=
  ["click", "dblclick", "input", "keydown", "scroll", "mouseover",
   "mouseout", "change", "submit", "keypress", "keyup", "blur", "focus"]

/-- `_winOrDocEvents`. -/
def winOrDocEvents : List String :=
  ["resize", "load", "unload", "beforeunload", "hashchange", "popstate",
   "DOMContentLoaded"]

/-- `_supportedEvents`. -/
def supportedEvents : List String := domEvents ++ winOrDocEvents

/-- A fresh registry observing `nodes` (`new Event()` with an empty handler
list; `_initEventSystem` applies no handlers since none exist yet). -/
def initEv (nodes : List DocNode) : EvState :=
  ⟨nodes, [], [], [], [], 0, []⟩

/-- `(this._processedItems.get(el))` (`none` = absent). -/
def procGet (p : List (Nat × List String)) (n : Nat) : Option (List String) :=
  (p.find? (·.1 == n)).map (·.2)

/-- `elementEvents.add(event)` on the entry for `n`. -/
def procAdd (p : List (Nat × List String)) (n : Nat) (ev : String) :
    List (Nat × List String) :=
  p.map (fun e => if e.1 == n then (e.1, e.2 ++ [ev]) else e)

/-- The per-element body of `_applyEventHandler`'s `elements.forEach`,
for the handler at list index `idx`. -/
def applyToElement (s : EvState) (idx : Nat) (el : Nat) : EvState :=
  match s.handlers[idx]? with
  | none => s
  | some h =>
    -- if (!processedItems.has(el)) processedItems.set(el, new Set())
    let s :=
      if (procGet s.processed el).isNone then
        { s with processed := s.processed ++ [(el, [])] }
      else s
    -- if (handler.domListeners.has(el)) return
    if h.domListeners.contains el then s
    else
      -- only add if this event type is new for this element
      let evs := (procGet s.processed el).getD []
      if evs.contains h.event then s
      else
        { s with
          processed := procAdd s.processed el h.event
          handlers := s.handlers.set idx
            { h with domListeners := h.domListeners ++ [el] }
          attached := s.attached ++ [(el, h.event, h.tok)]
          attachLog := s.attachLog ++ [(el, h.event)] }

/-- `_applyEventHandler(handler)` for the handler at list index `idx`. -/
def applyEventHandler (s : EvState) (idx : Nat) : EvState :=
  match s.handlers[idx]? with
  | none => s
  | some h =>
    if winOrDocEvents.contains h.event &&
        (h.selector == "window" || h.selector == "document") then
      { s with
        handlers := s.handlers.set idx { h with windowListener := true }
        winAttached := s.winAttached ++ [(h.event, h.tok)] }
    else
      -- document.querySelectorAll(selector), in document order
      let els := (s.nodes.filter (fun d => d.sels.contains h.selector)).map
        (·.nid)
      els.foldl (fun s el => applyToElement s idx el) s

/-- `onEvent(event, selector, callback)`.  Callbacks are heap tokens, so the
`typeof callback !== 'function'` branch is unreachable in the model. -/
def onEvent (s : EvState) (event selector : String) (cb : Nat) :
    Except String (EvState × Nat) :=
  if !supportedEvents.contains event then
    .error "UNSUPPORTED_EVENT"
  else
    let id := s.handlers.length
    let h : Handler := ⟨id, event, selector, cb, s.nextTok, [], false⟩
    let s' := { s with handlers := s.handlers ++ [h], nextTok := s.nextTok + 1 }
    .ok (applyEventHandler s' id, id)

/-- `_cleanupHandler(handler)` for the handler at list index `idx`:
detach its window listener and every element listener it stored, then clear
its `domListeners`. -/
def cleanupHandler (s : EvState) (idx : Nat) : EvState :=
  match s.handlers[idx]? with
  | none => s
  | some h =>
    let s :=
      if h.windowListener then
        { s with winAttached :=
            s.winAttached.filter (fun e => !(e.1 == h.event && e.2 == h.tok)) }
      else s
    let s :=
      { s with attached :=
          s.attached.filter (fun a =>
            !(h.domListeners.contains a.1 && a.2.1 == h.event &&
              a.2.2 == h.tok)) }
    { s with handlers := s.handlers.set idx { h with domListeners := [] } }

/-- `removeEvent(handlerId)`: find by id, clean up, splice out. -/
def removeEvent (s : EvState) (id : Nat) : EvState × Bool :=
  match s.handlers.findIdx? (fun h => h.id == id) with
  | none => (s, false)
  | some idx =>
    let s := cleanupHandler s idx
    ({ s with handlers := s.handlers.eraseIdx idx }, true)

/-- The MutationObserver pass on reported insertions: re-apply every handler
that is not global-scope. -/
def rebind (s : EvState) : EvState :=
  (List.range s.handlers.length).foldl
    (fun s i =>
      match s.handlers[i]? with
      | none => s
      | some h =>
        if !winOrDocEvents.contains h.event && h.selector != "window" &&
            h.selector != "document" then
          applyEventHandler s i
        else s)
    s

/-- A native event `ev` firing on node `n`: every live native listener for
`(n, ev)` runs its fan-out closure, which re-scans all current handlers and
invokes each whose event type and selector match; returns the callback
tokens invoked, in order. -/
def dispatch (s : EvState) (n : Nat) (ev : String) : List Nat :=
  ((s.attached.filter (fun a => a.1 == n && a.2.1 == ev)).map
    (fun _ => (s.handlers.filter
      (fun h => h.event == ev && nodeMatches s.nodes n h.selector)).map
      (·.cb))).flatten

/-- Public operations driving a registry through its life (`destroy` is
modelled separately). -/
inductive EOp where
  | onE (event selector : String) (cb : Nat)
  | remove (id : Nat)
  /-- a node inserted into the document, followed by the observer pass. -/
  | grow (d : DocNode)
deriving Repr, DecidableEq

/-- One public operation (`onEvent` errors leave the state unchanged). -/
def stepOp (s : EvState) (op : EOp) : EvState :=
  match op with
  | .onE ev sel cb =>
    match onEvent s ev sel cb with
    | .ok (s', _) => s'
    | .error _ => s
  | .remove id => (removeEvent s id).1
  | .grow d => rebind { s with nodes := s.nodes ++ [d] }

/-- Run a list of operations from a state. -/
def runOps (s : EvState) (ops : List EOp) : EvState := ops.foldl stepOp s

/-! ## Shared lemmas -/

theorem jsEqA_refl (v : AVal) : jsEqA v v = true := by
  cases v <;> simp [jsEqA]

/-- `hasChanged` is reflexively false on virtual nodes (the "same logical
node" direction of change detection). -/
theorem hasChanged_self_vnode (t : String) (a : List (String × AVal))
    (cs : List JVal) :
    hasChanged (.vnode t a cs) (.vnode t a cs) = false := by
  by_cases hT : (t == "TEXT_NODE") = true
  · unfold hasChanged
    simp [typeofJ, isTextNodeJ, hT]
  · cases hk : keyAttr (.vnode t a cs) with
    | none =>
      unfold hasChanged
      simp [typeofJ, isTextNodeJ, hT, tagOf, hk]
    | some k =>
      unfold hasChanged
      simp [typeofJ, isTextNodeJ, hT, tagOf, hk, jsEqA_refl]

/-- Every normalized child is a virtual node, hence truthy: the
`.filter(Boolean)` after `normalizeChild` keeps everything. -/
theorem jsTruthy_normalizeChild (c : JVal) :
    jsTruthy (normalizeChild c) = true := by
  cases c <;> simp [normalizeChild, jsTruthy]

theorem filter_truthy_normalize (cs : List JVal) :
    (cs.map normalizeChild).filter jsTruthy = cs.map normalizeChild := by
  induction cs with
  | nil => rfl
  | cons c cs ih =>
    simp [List.filter_cons, jsTruthy_normalizeChild, ih]

/-- Every modelled child value passes the `typeof` filter of `patch` case 4
(JS `undefined`/booleans, which it would drop, are outside the universe). -/
theorem validChild_true (c : JVal) : validChild c = true := by
  cases c <;> simp [validChild, typeofJ]

/-! ## C5 — `hasChanged` -/

/-- C5, counterexample: a text-marker node holding the empty string and an
element node differ in runtime shape (text vs element), yet `hasChanged`
returns `false`: the TEXT_NODE branch compares the coerced texts and treats
the element side as `''`. -/
theorem hasChanged_shape_counterexample :
    isTextNodeJ (.vnode "TEXT_NODE" [] [.str ""]) = true ∧
    isTextNodeJ (.vnode "div" [] []) = false ∧
    hasChanged (.vnode "TEXT_NODE" [] [.str ""]) (.vnode "div" [] []) = false := by
  refine ⟨rfl, rfl, rfl⟩

/-- C5 (amended): `hasChanged` is true for differing tags of two element
(non-text-marker) nodes, true for differing explicit keys when both declare
one, false for identical tags with no keys regardless of attribute and
children differences, and true for a primitive against an object; but when at
least one side is a text-marker node it only compares the coerced texts,
treating the non-text side as the empty string, and two text markers compare
exactly by text. -/
theorem hasChanged_characterization :
    (∀ t1 t2 a1 a2 c1 c2, t1 ≠ "TEXT_NODE" → t2 ≠ "TEXT_NODE" → t1 ≠ t2 →
      hasChanged (.vnode t1 a1 c1) (.vnode t2 a2 c2) = true) ∧
    (∀ t a1 a2 c1 c2 k1 k2, t ≠ "TEXT_NODE" →
      keyAttr (.vnode t a1 c1) = some k1 → keyAttr (.vnode t a2 c2) = some k2 →
      hasChanged (.vnode t a1 c1) (.vnode t a2 c2) = !(jsEqA k1 k2)) ∧
    (∀ t a1 a2 c1 c2, t ≠ "TEXT_NODE" →
      keyAttr (.vnode t a1 c1) = none → keyAttr (.vnode t a2 c2) = none →
      hasChanged (.vnode t a1 c1) (.vnode t a2 c2) = false) ∧
    (∀ s t a c, hasChanged (.str s) (.vnode t a c) = true) ∧
    (∀ c1 t a c2, t ≠ "TEXT_NODE" →
      hasChanged (.vnode "TEXT_NODE" [] c1) (.vnode t a c2) =
        (textSlot (.vnode "TEXT_NODE" [] c1) != "")) ∧
    (∀ cs1 cs2 a1 a2,
      hasChanged (.vnode "TEXT_NODE" a1 cs1) (.vnode "TEXT_NODE" a2 cs2) =
        (textSlot (.vnode "TEXT_NODE" a1 cs1) !=
          textSlot (.vnode "TEXT_NODE" a2 cs2))) := by
  refine ⟨?_, ?_, ?_, ?_, ?_, ?_⟩
  · intro t1 t2 a1 a2 c1 c2 h1 h2 hne
    unfold hasChanged
    simp [typeofJ, isTextNodeJ, h1, h2, tagOf, hne]
  · intro t a1 a2 c1 c2 k1 k2 ht hk1 hk2
    unfold hasChanged
    simp [typeofJ, isTextNodeJ, ht, tagOf, hk1, hk2]
  · intro t a1 a2 c1 c2 ht hk1 hk2
    unfold hasChanged
    simp [typeofJ, isTextNodeJ, ht, tagOf, hk1, hk2]
  · intro s t a c
    unfold hasChanged
    simp [typeofJ]
  · intro c1 t a c2 ht
    unfold hasChanged
    simp [typeofJ, isTextNodeJ, ht, textSlot]
  · intro cs1 cs2 a1 a2
    unfold hasChanged
    simp [typeofJ, isTextNodeJ]

/-- C5 witness for `hasChanged_characterization`. -/
theorem hasChanged_characterization_witness :
    hasChanged (.vnode "div" [] []) (.vnode "span" [] []) = true ∧
    hasChanged (.vnode "li" [("key", .s "a")] [])
      (.vnode "li" [("key", .s "b")] []) = true ∧
    hasChanged (.vnode "li" [("id", .s "x")] [.str "p"])
      (.vnode "li" [("id", .s "y")] []) = false := by
  obtain ⟨h1, h2, h3, _, _, _⟩ := hasChanged_characterization
  refine ⟨h1 "div" "span" [] [] [] [] (by decide) (by decide) (by decide),
    ?_, ?_⟩
  · rw [h2 "li" [("key", .s "a")] [("key", .s "b")] [] [] (.s "a") (.s "b")
      (by decide) rfl rfl]
    rfl
  · exact h3 "li" [("id", .s "x")] [("id", .s "y")] [.str "p"] []
      (by decide) rfl rfl

/-! ## C3 — `setAttribute` and `on*` keys -/

/-- C3, counterexample: an `on`-prefixed key with a callable value is written
directly onto the native node as a lowercased property — no delegation
registry is involved (`Dom.setAttribute` has no access to any `Event`
instance). -/
theorem setAttribute_on_counterexample :
    setAttribute (.elem "button" [] [] "" [] []) "onClick" (.fn 5) =
      .elem "button" [("onclick", .fn 5)] [] "" [] [] := by
  rfl

/-- C3 (amended): for every element node, when the key is prefixed `on` and
the value is callable, `setAttribute` assigns the value directly to the
node's lowercased on-property and returns, bypassing the
className/style/property/attribute paths; the delegation registry is not
involved. -/
theorem setAttribute_on_direct_write (tag : String)
    (props : List (String × AVal)) (attrs : List (String × String))
    (cn : String) (st : List (String × String)) (ch : List DNode)
    (key : String) (tok : Nat) (hOn : jsStartsWith key "on" = true) :
    setAttribute (.elem tag props attrs cn st ch) key (.fn tok) =
      .elem tag (setAssoc props (jsToLower key) (.fn tok)) attrs cn st ch := by
  unfold setAttribute
  simp [hOn]

/-- C3 witness for `setAttribute_on_direct_write`. -/
theorem setAttribute_on_direct_write_witness :
    setAttribute (.elem "input" [] [] "" [] []) "onInput" (.fn 9) =
      .elem "input" (setAssoc [] (jsToLower "onInput") (.fn 9)) [] "" [] [] :=
  setAttribute_on_direct_write "input" [] [] "" [] [] "onInput" 9 rfl

/-! ## C1 — handler ids -/

/-- C1 (code bug): `onEvent` allocates `id = handlers.length`, so after a
removal an id is reused: registering `a`, `b` (ids 0, 1), removing id 0 and
registering `c` hands out id 1 again while `b` — registered earlier in the
registry's life — still holds id 1.  Two live handlers now share an id,
contradicting the never-reused guarantee (and the repository's own
documentation, `docs/events.md`: "Assign a unique ID to each handler"). -/
theorem onEvent_id_reuse_bug :
    (runOps (initEv []) [.onE "click" ".a" 100, .onE "click" ".b" 101,
        .remove 0]).handlers.map (fun h => h.id) = [1] ∧
    (runOps (initEv []) [.onE "click" ".a" 100, .onE "click" ".b" 101,
        .remove 0, .onE "click" ".c" 102]).handlers.map
      (fun h => (h.id, h.cb)) = [(1, 101), (1, 102)] := by
  exact ⟨rfl, rfl⟩

/-! ## C6 — exception handling in `patchChildren` -/

/-- The `try`-block of `patchChildren`, factored out so theorems can observe
whether the original diffing pass threw. -/
def patchBody (kids : List DNode) (newChildren oldChildren : List JVal) :
    TryRes :=
  let nNew := (newChildren.map normalizeChild).filter jsTruthy
  let nOld := (oldChildren.map normalizeChild).filter jsTruthy
  if nNew.length = 0 then .ok [] kids.length
  else
    let t := trimKids kids nNew.length
    patchLoop nOld nNew 0 t.1 t.2

theorem patchChildren_eq_body (kids : List DNode) (new old : List JVal) :
    patchChildren kids new old =
      match patchBody kids new old with
      | .ok k o => .ok (k, o)
      | .exn k o =>
        match rebuildKids new with
        | .error e => .error e
        | .ok ds => .ok (ds, o + k.length + ds.length) := by
  rw [patchChildren, patchBody]

/-- C6, counterexample: diffing `[{}]` (an object with no `tag`) throws while
materializing; the catch-block rebuild rematerializes the same entry, throws
again, and the exception escapes `patchChildren` to the caller. -/
theorem patchChildren_exception_escapes :
    patchChildren [] [.badObj 0] [] =
      .error "Invalid VNode: missing tag property" := by
  rw [patchChildren_eq_body]
  simp [patchBody, patchLoop, trimKids, normalizeChild, jsTruthy,
    createFromVNode, rebuildKids]

/-- C6 (amended): an exception while diffing is caught at the
`patchChildren` boundary and answered with a full clear-and-rematerialize of
the subtree from the new list; when every new-list entry rematerializes, no
exception reaches the caller and, if the diffing pass had thrown, the
subtree is exactly the rematerialized new list.  But when rematerializing
the new list itself throws — in particular when the original exception came
from materializing an unrenderable new entry, which the rebuild hits
again — the exception escapes `patchChildren` to the caller. -/
theorem patchChildren_boundary_recovery (kids : List DNode)
    (new old : List JVal) :
    (∀ e, patchChildren kids new old = .error e → rebuildKids new = .error e) ∧
    (∀ ds, rebuildKids new = .ok ds →
      (∃ p, patchChildren kids new old = .ok p) ∧
      (∀ k o, patchBody kids new old = .exn k o →
        patchChildren kids new old = .ok (ds, o + k.length + ds.length))) := by
  constructor
  · intro e he
    rw [patchChildren_eq_body] at he
    cases hb : patchBody kids new old with
    | ok k o => rw [hb] at he; simp at he
    | exn k o =>
      rw [hb] at he
      cases hr : rebuildKids new with
      | error e' => rw [hr] at he; simpa using he
      | ok ds => rw [hr] at he; simp at he
  · intro ds hds
    constructor
    · rw [patchChildren_eq_body]
      cases hb : patchBody kids new old with
      | ok k o => exact ⟨(k, o), rfl⟩
      | exn k o => rw [hds]; exact ⟨_, rfl⟩
    · intro k o hb
      rw [patchChildren_eq_body, hb, hds]

/-- C6 witness for `patchChildren_boundary_recovery`. -/
theorem patchChildren_boundary_recovery_witness :
    ∃ p, patchChildren [] [JVal.str "x"] [] = .ok p :=
  (((patchChildren_boundary_recovery [] [.str "x"] []).2 [.text "x"]
    rfl).1)

/-! ## C2 — `removeEvent` -/

theorem eraseIdx_set_self {α : Type} (l : List α) (i : Nat) (x : α) :
    (l.set i x).eraseIdx i = l.eraseIdx i := by
  induction l generalizing i with
  | nil => rfl
  | cons a as ih =>
    cases i with
    | zero => rfl
    | succ j => simp only [List.set_cons_succ, List.eraseIdx_cons_succ, ih]

/-- Every callback a dispatch invokes belongs to a currently registered
handler. -/
theorem dispatch_cb_mem (s : EvState) (n : Nat) (ev : String) (c : Nat)
    (hc : c ∈ dispatch s n ev) : c ∈ s.handlers.map (fun h => h.cb) := by
  unfold dispatch at hc
  rw [List.mem_flatten] at hc
  obtain ⟨l, hl, hcl⟩ := hc
  rw [List.mem_map] at hl
  obtain ⟨a, _, rfl⟩ := hl
  rw [List.mem_map] at hcl
  obtain ⟨h, hh, rfl⟩ := hcl
  exact List.mem_map.mpr ⟨h, (List.mem_filter.mp hh).1, rfl⟩

theorem cleanupHandler_handlers (s : EvState) (idx : Nat) (h : Handler)
    (hidx : s.handlers[idx]? = some h) :
    (cleanupHandler s idx).handlers =
      s.handlers.set idx { h with domListeners := [] } := by
  unfold cleanupHandler
  rw [hidx]
  by_cases hw : h.windowListener = true <;> simp [hw]

/-- C2 (amended): `removeEvent(id)` returns whether a handler with that id
was found; removing an unknown id returns `false` and leaves the whole
state — hence every other handler — intact; after a successful removal the
found handler is spliced out and, provided its callback is not shared with a
surviving handler, firing any event on any node never invokes that callback
again.  (The shared-native-listener part of the original claim fails: see
the counterexample.) -/
theorem removeEvent_only_that_handler (s : EvState) (id : Nat) :
    ((∀ h ∈ s.handlers, (h.id == id) = false) → removeEvent s id = (s, false)) ∧
    (∀ idx h, s.handlers.findIdx? (fun h => h.id == id) = some idx →
      s.handlers[idx]? = some h →
      (removeEvent s id).2 = true ∧
      (removeEvent s id).1.handlers = s.handlers.eraseIdx idx ∧
      ((∀ h' ∈ s.handlers.eraseIdx idx, h'.cb ≠ h.cb) →
        ∀ n ev, h.cb ∉ dispatch (removeEvent s id).1 n ev)) := by
  constructor
  · intro hall
    unfold removeEvent
    rw [List.findIdx?_eq_none_iff.mpr hall]
  · intro idx h hfind hidx
    have hhandlers : (removeEvent s id).1.handlers = s.handlers.eraseIdx idx := by
      unfold removeEvent
      rw [hfind]
      simp only [cleanupHandler_handlers s idx h hidx]
      exact eraseIdx_set_self _ _ _
    refine ⟨?_, hhandlers, ?_⟩
    · unfold removeEvent
      rw [hfind]
    · intro hcb n ev hmem
      have := dispatch_cb_mem _ _ _ _ hmem
      rw [hhandlers] at this
      obtain ⟨h', hh', heq⟩ := List.mem_map.mp this
      exact hcb h' hh' heq

/-- C2 witness for `removeEvent_only_that_handler`. -/
theorem removeEvent_only_that_handler_witness :
    removeEvent (initEv []) 5 = (initEv [], false) ∧
    (100 : Nat) ∉ dispatch (removeEvent (runOps (initEv [⟨0, [".x"]⟩])
      [.onE "click" ".x" 100, .onE "click" ".x" 101]) 0).1 0 "click" := by
  constructor
  · exact (removeEvent_only_that_handler (initEv []) 5).1 (by decide)
  · exact ((removeEvent_only_that_handler (runOps (initEv [⟨0, [".x"]⟩])
        [.onE "click" ".x" 100, .onE "click" ".x" 101]) 0).2 0
        ⟨0, "click", ".x", 100, 0, [0], false⟩ (by decide) (by decide)).2.2
      (by decide) 0 "click"

/-- C2, counterexample to the shared-listener clause: two handlers (`.x` and
`.y`) both match node 0; the first owns the single native `click` listener.
Removing the first detaches that listener even though the second still
references the (node, click) pair, so the second — still registered and
still matching — silently stops firing. -/
theorem removeEvent_shared_listener_counterexample :
    dispatch (runOps (initEv [⟨0, [".x", ".y"]⟩])
      [.onE "click" ".x" 100, .onE "click" ".y" 101]) 0 "click" = [100, 101] ∧
    (removeEvent (runOps (initEv [⟨0, [".x", ".y"]⟩])
      [.onE "click" ".x" 100, .onE "click" ".y" 101]) 0).2 = true ∧
    (removeEvent (runOps (initEv [⟨0, [".x", ".y"]⟩])
      [.onE "click" ".x" 100, .onE "click" ".y" 101]) 0).1.handlers.map
      (fun h => h.cb) = [101] ∧
    nodeMatches (removeEvent (runOps (initEv [⟨0, [".x", ".y"]⟩])
      [.onE "click" ".x" 100, .onE "click" ".y" 101]) 0).1.nodes 0 ".y" = true ∧
    dispatch (removeEvent (runOps (initEv [⟨0, [".x", ".y"]⟩])
      [.onE "click" ".x" 100, .onE "click" ".y" 101]) 0).1 0 "click" = [] := by
  exact ⟨rfl, rfl, rfl, rfl, rfl⟩

/-! ## C8/C10 — the element-seen set -/

/-- The element-seen set for node `n`, as the JS code reads it
(`processedItems.get(el)` with a missing entry read as empty). -/
def procD (s : EvState) (n : Nat) : List String :=
  (procGet s.processed n).getD []

theorem procGet_append_unit (p : List (Nat × List String)) (el n : Nat) :
    (procGet (p ++ [(el, [])]) n).getD [] = (procGet p n).getD [] := by
  unfold procGet
  rw [List.find?_append]
  cases h : p.find? (·.1 == n) with
  | some e => simp
  | none =>
    by_cases he : (el == n) = true <;> simp [List.find?, he]

theorem procGet_append_unit_self (p : List (Nat × List String)) (el : Nat)
    (h : procGet p el = none) : procGet (p ++ [(el, [])]) el = some [] := by
  unfold procGet at *
  rw [List.find?_append]
  cases hf : p.find? (·.1 == el) with
  | some e => rw [hf] at h; simp at h
  | none => simp [List.find?]

theorem procGet_cons (e : Nat × List String) (p : List (Nat × List String))
    (n : Nat) :
    procGet (e :: p) n =
      if (e.1 == n) = true then some e.2 else procGet p n := by
  unfold procGet
  rw [List.find?_cons]
  by_cases h : (e.1 == n) = true <;> simp [h]

theorem procAdd_cons (e : Nat × List String) (p : List (Nat × List String))
    (m : Nat) (ev : String) :
    procAdd (e :: p) m ev =
      (if e.1 == m then (e.1, e.2 ++ [ev]) else e) :: procAdd p m ev := rfl

theorem procGet_procAdd_self (p : List (Nat × List String)) (m : Nat)
    (ev : String) (l : List String) (hp : procGet p m = some l) :
    procGet (procAdd p m ev) m = some (l ++ [ev]) := by
  induction p with
  | nil => simp [procGet] at hp
  | cons e p ih =>
    rw [procGet_cons] at hp
    rw [procAdd_cons]
    by_cases he : (e.1 == m) = true
    · rw [if_pos he] at hp
      have he2 : e.2 = l := by simpa using hp
      rw [if_pos he, procGet_cons,
        if_pos (show (((e.1, e.2 ++ [ev]) : Nat × List String).1 == m) = true
          from he)]
      rw [he2]
    · rw [if_neg he] at hp
      rw [if_neg he, procGet_cons, if_neg he]
      exact ih hp

theorem procD_procAdd_mono (p : List (Nat × List String)) (m n : Nat)
    (ev x : String) (hx : x ∈ (procGet p n).getD []) :
    x ∈ (procGet (procAdd p m ev) n).getD [] := by
  induction p with
  | nil => simp [procGet] at hx
  | cons e p ih =>
    rw [procGet_cons] at hx
    rw [procAdd_cons]
    by_cases he : (e.1 == n) = true
    · rw [if_pos he] at hx
      by_cases hm : (e.1 == m) = true
      · rw [if_pos hm, procGet_cons,
          if_pos (show (((e.1, e.2 ++ [ev]) : Nat × List String).1 == n) = true
            from he)]
        simp only [Option.getD_some] at hx ⊢
        exact List.mem_append_left _ hx
      · rw [if_neg hm, procGet_cons, if_pos he]
        exact hx
    · rw [if_neg he] at hx
      by_cases hm : (e.1 == m) = true
      · rw [if_pos hm, procGet_cons,
          if_neg (show ¬ (((e.1, e.2 ++ [ev]) : Nat × List String).1 == n)
            = true from he)]
        exact ih hx
      · rw [if_neg hm, procGet_cons, if_neg he]
        exact ih hx

/-- Live native listeners as (node, event) pairs. -/
def attachedPairs (s : EvState) : List (Nat × String) :=
  s.attached.map (fun a => (a.1, a.2.1))

/-- The seen-set invariant: every (node, event) pair was natively attached at
most once in the registry's whole life, attach history is covered by the
element-seen set, and live listeners are covered by the history. -/
def SeenInv (s : EvState) : Prop :=
  (∀ n ev, s.attachLog.count (n, ev) ≤ 1) ∧
  (∀ n ev, (n, ev) ∈ s.attachLog → ev ∈ procD s n) ∧
  (∀ n ev, (attachedPairs s).count (n, ev) ≤ s.attachLog.count (n, ev))

/-- Relation between a state and a successor: the seen set only grows, the
attach history is frozen on already-seen pairs, and `SeenInv` is preserved. -/
def StepOK (s s' : EvState) : Prop :=
  (∀ n x, x ∈ procD s n → x ∈ procD s' n) ∧
  (∀ n ev, ev ∈ procD s n →
    s'.attachLog.count (n, ev) = s.attachLog.count (n, ev)) ∧
  (SeenInv s → SeenInv s')

theorem stepOK_refl (s : EvState) : StepOK s s :=
  ⟨fun _ _ h => h, fun _ _ _ => rfl, fun h => h⟩

theorem stepOK_trans {s s' s'' : EvState} (h1 : StepOK s s')
    (h2 : StepOK s' s'') : StepOK s s'' := by
  refine ⟨fun n x hx => h2.1 n x (h1.1 n x hx), fun n ev hev => ?_,
    fun hI => h2.2.2 (h1.2.2 hI)⟩
  rw [h2.2.1 n ev (h1.1 n ev hev), h1.2.1 n ev hev]

/-- States agreeing on the seen set, attach history and live listeners are
`StepOK`-related. -/
theorem stepOK_of_untouched {s s' : EvState}
    (hp : ∀ n, procD s' n = procD s n) (hl : s'.attachLog = s.attachLog)
    (ha : s'.attached = s.attached) : StepOK s s' := by
  refine ⟨fun n x hx => ?_, fun n ev _ => ?_, fun hI => ?_⟩
  · rw [hp]; exact hx
  · rw [hl]
  · obtain ⟨h1, h2, h3⟩ := hI
    refine ⟨fun n ev => ?_, fun n ev hm => ?_, fun n ev => ?_⟩
    · rw [hl]; exact h1 n ev
    · rw [hl] at hm; rw [hp]; exact h2 n ev hm
    · unfold attachedPairs; rw [ha, hl]; exact h3 n ev

/-- `StepOK` across the listener-attaching update of `applyToElement`
(state `sA` is the post-"ensure an entry exists" state). -/
theorem stepOK_attach (s sA : EvState) (idx el : Nat) (h : Handler)
    (hEq : ∀ n, procD sA n = procD s n) (hLog : sA.attachLog = s.attachLog)
    (hAtt : sA.attached = s.attached)
    (hSome : (procGet sA.processed el).isSome = true)
    (hev : ((procGet sA.processed el).getD []).contains h.event = false) :
    StepOK s
      { sA with
        processed := procAdd sA.processed el h.event
        handlers := sA.handlers.set idx
          { h with domListeners := h.domListeners ++ [el] }
        attached := sA.attached ++ [(el, h.event, h.tok)]
        attachLog := sA.attachLog ++ [(el, h.event)] } := by
  obtain ⟨evs, hevs⟩ := Option.isSome_iff_exists.mp hSome
  have hGetAfter : procGet (procAdd sA.processed el h.event) el =
      some (evs ++ [h.event]) := procGet_procAdd_self _ _ _ _ hevs
  have hNotMem : h.event ∉ evs := by
    rw [hevs] at hev
    simpa using hev
  have hPairNe : ∀ n ev, ev ∈ procD s n →
      ((el, h.event) : Nat × String) ≠ (n, ev) := by
    intro n ev hmem hne
    rw [Prod.mk.injEq] at hne
    obtain ⟨he1, he2⟩ := hne
    subst he1
    subst he2
    rw [← hEq el, procD, hevs, Option.getD_some] at hmem
    exact hNotMem hmem
  have hCount : ∀ n ev, ev ∈ procD s n →
      (sA.attachLog ++ [(el, h.event)]).count (n, ev) =
        s.attachLog.count (n, ev) := by
    intro n ev hmem
    rw [List.count_append, hLog]
    have hz : List.count (n, ev) [(el, h.event)] = 0 := by
      rw [List.count_eq_zero]
      intro hc
      have h' : ((n, ev) : Nat × String) = (el, h.event) := by simpa using hc
      exact hPairNe n ev hmem h'.symm
    omega
  refine ⟨fun n x hx => ?_, hCount, fun hI => ?_⟩
  · show x ∈ (procGet (procAdd sA.processed el h.event) n).getD []
    have hx' : x ∈ (procGet sA.processed n).getD [] := by
      show x ∈ procD sA n
      rw [hEq n]; exact hx
    exact procD_procAdd_mono _ _ _ _ _ hx'
  · obtain ⟨h1, h2, h3⟩ := hI
    have hLogNot : ((el, h.event) : Nat × String) ∉ s.attachLog := by
      intro hm
      have hmem := h2 el h.event hm
      rw [← hEq el, procD, hevs, Option.getD_some] at hmem
      exact hNotMem hmem
    refine ⟨fun n ev => ?_, fun n ev hm => ?_, fun n ev => ?_⟩
    · show (sA.attachLog ++ [(el, h.event)]).count (n, ev) ≤ 1
      rw [List.count_append, hLog]
      by_cases hpe : ((el, h.event) : Nat × String) = (n, ev)
      · have hz : s.attachLog.count (n, ev) = 0 := by
          rw [List.count_eq_zero]
          rw [← hpe]
          exact hLogNot
        have hone : List.count (n, ev) [(el, h.event)] ≤ 1 := by
          rw [hpe]
          simp [List.count_cons]
        omega
      · have hz : List.count (n, ev) [(el, h.event)] = 0 := by
          rw [List.count_eq_zero]
          intro hc
          have h' : ((n, ev) : Nat × String) = (el, h.event) := by
            simpa using hc
          exact hpe h'.symm
        have := h1 n ev
        omega
    · show ev ∈ (procGet (procAdd sA.processed el h.event) n).getD []
      have hm' : (n, ev) ∈ sA.attachLog ++ [(el, h.event)] := hm
      rcases List.mem_append.mp hm' with hOld | hNew
      · rw [hLog] at hOld
        have hmem := h2 n ev hOld
        have hmem' : ev ∈ (procGet sA.processed n).getD [] := by
          show ev ∈ procD sA n
          rw [hEq n]; exact hmem
        exact procD_procAdd_mono _ _ _ _ _ hmem'
      · have h' : ((n, ev) : Nat × String) = (el, h.event) := by
          simpa using hNew
        rw [Prod.mk.injEq] at h'
        obtain ⟨rfl, rfl⟩ := h'
        rw [hGetAfter, Option.getD_some]
        exact List.mem_append_right _ (by simp)
    · show ((sA.attached ++ [(el, h.event, h.tok)]).map
          (fun a => (a.1, a.2.1))).count (n, ev) ≤
        (sA.attachLog ++ [(el, h.event)]).count (n, ev)
      rw [List.map_append, List.count_append, List.count_append, hLog, hAtt]
      have hle := h3 n ev
      have hmap : (([(el, h.event, h.tok)] : List (Nat × String × Nat)).map
          (fun a => (a.1, a.2.1))) = [(el, h.event)] := rfl
      rw [hmap]
      unfold attachedPairs at hle
      omega

/-- `StepOK` when the successor only drops live listeners. -/
theorem stepOK_of_attached_sublist {s s' : EvState}
    (hp : ∀ n, procD s' n = procD s n) (hl : s'.attachLog = s.attachLog)
    (ha : s'.attached.Sublist s.attached) : StepOK s s' := by
  refine ⟨fun n x hx => by rw [hp]; exact hx, fun n ev _ => by rw [hl],
    fun hI => ?_⟩
  obtain ⟨h1, h2, h3⟩ := hI
  refine ⟨fun n ev => by rw [hl]; exact h1 n ev,
    fun n ev hm => by rw [hl] at hm; rw [hp]; exact h2 n ev hm,
    fun n ev => ?_⟩
  rw [hl]
  calc (attachedPairs s').count (n, ev)
      ≤ (attachedPairs s).count (n, ev) :=
        (ha.map (fun a => (a.1, a.2.1))).count_le _
    _ ≤ s.attachLog.count (n, ev) := h3 n ev

theorem applyToElement_eq (s : EvState) (idx el : Nat) (h : Handler)
    (hh : s.handlers[idx]? = some h) :
    applyToElement s idx el =
      (fun sA =>
        if h.domListeners.contains el then sA
        else if ((procGet sA.processed el).getD []).contains h.event then sA
        else
          { sA with
            processed := procAdd sA.processed el h.event
            handlers := sA.handlers.set idx
              { h with domListeners := h.domListeners ++ [el] }
            attached := sA.attached ++ [(el, h.event, h.tok)]
            attachLog := sA.attachLog ++ [(el, h.event)] })
      (if (procGet s.processed el).isNone then
        { s with processed := s.processed ++ [(el, [])] }
       else s) := by
  unfold applyToElement
  rw [hh]

theorem stepOK_applyCore (s sA : EvState) (idx el : Nat) (h : Handler)
    (hEq : ∀ n, procD sA n = procD s n) (hLog : sA.attachLog = s.attachLog)
    (hAtt : sA.attached = s.attached)
    (hSome : (procGet sA.processed el).isSome = true) :
    StepOK s
      (if h.domListeners.contains el then sA
       else if ((procGet sA.processed el).getD []).contains h.event then sA
       else
         { sA with
           processed := procAdd sA.processed el h.event
           handlers := sA.handlers.set idx
             { h with domListeners := h.domListeners ++ [el] }
           attached := sA.attached ++ [(el, h.event, h.tok)]
           attachLog := sA.attachLog ++ [(el, h.event)] }) := by
  by_cases h1 : h.domListeners.contains el = true
  · rw [if_pos h1]
    exact stepOK_of_untouched hEq hLog hAtt
  · rw [if_neg h1]
    by_cases h2 : ((procGet sA.processed el).getD []).contains h.event = true
    · rw [if_pos h2]
      exact stepOK_of_untouched hEq hLog hAtt
    · rw [if_neg h2]
      exact stepOK_attach s sA idx el h hEq hLog hAtt hSome
        (by simpa using h2)

theorem stepOK_applyToElement (s : EvState) (idx el : Nat) :
    StepOK s (applyToElement s idx el) := by
  cases hh : s.handlers[idx]? with
  | none =>
    unfold applyToElement
    rw [hh]
    exact stepOK_refl s
  | some h =>
    rw [applyToElement_eq s idx el h hh]
    by_cases hp : (procGet s.processed el).isNone = true
    · rw [if_pos hp]
      have hnone : procGet s.processed el = none := by
        cases hg : procGet s.processed el with
        | none => rfl
        | some _ => rw [hg] at hp; simp at hp
      refine stepOK_applyCore s _ idx el h
        (fun n => procGet_append_unit s.processed el n) rfl rfl ?_
      show (procGet (s.processed ++ [(el, [])]) el).isSome = true
      rw [procGet_append_unit_self s.processed el hnone]
      rfl
    · rw [if_neg hp]
      refine stepOK_applyCore s s idx el h (fun n => rfl) rfl rfl ?_
      cases hg : procGet s.processed el with
      | none => rw [hg] at hp; simp at hp
      | some _ => rfl

theorem stepOK_foldl {α : Type} (f : EvState → α → EvState)
    (hf : ∀ s x, StepOK s (f s x)) (l : List α) (s : EvState) :
    StepOK s (l.foldl f s) := by
  induction l generalizing s with
  | nil => exact stepOK_refl s
  | cons x xs ih => exact stepOK_trans (hf s x) (ih (f s x))

theorem stepOK_applyEventHandler (s : EvState) (idx : Nat) :
    StepOK s (applyEventHandler s idx) := by
  unfold applyEventHandler
  cases hh : s.handlers[idx]? with
  | none => exact stepOK_refl s
  | some h =>
    dsimp only
    by_cases hw : (winOrDocEvents.contains h.event &&
        (h.selector == "window" || h.selector == "document")) = true
    · rw [if_pos hw]
      exact stepOK_of_untouched (fun n => rfl) rfl rfl
    · rw [if_neg hw]
      exact stepOK_foldl _ (fun s' el => stepOK_applyToElement s' idx el) _ s

theorem stepOK_cleanupHandler (s : EvState) (idx : Nat) :
    StepOK s (cleanupHandler s idx) := by
  unfold cleanupHandler
  cases hh : s.handlers[idx]? with
  | none => exact stepOK_refl s
  | some h =>
    dsimp only
    by_cases hw : h.windowListener = true
    · rw [if_pos hw]
      exact stepOK_of_attached_sublist (fun n => rfl) rfl
        (List.filter_sublist _)
    · rw [if_neg hw]
      exact stepOK_of_attached_sublist (fun n => rfl) rfl
        (List.filter_sublist _)

theorem stepOK_rebind (s : EvState) : StepOK s (rebind s) := by
  unfold rebind
  refine stepOK_foldl _ (fun s' i => ?_) _ s
  cases hh : s'.handlers[i]? with
  | none => exact stepOK_refl s'
  | some h =>
    dsimp only
    by_cases hc : (!winOrDocEvents.contains h.event &&
        h.selector != "window" && h.selector != "document") = true
    · rw [if_pos hc]
      exact stepOK_applyEventHandler s' i
    · rw [if_neg hc]
      exact stepOK_refl s'

theorem stepOK_stepOp (s : EvState) (op : EOp) : StepOK s (stepOp s op) := by
  cases op with
  | onE ev sel cb =>
    unfold stepOp onEvent
    dsimp only
    by_cases hs : (!supportedEvents.contains ev) = true
    · rw [if_pos hs]
      exact stepOK_refl s
    · rw [if_neg hs]
      exact @stepOK_trans s
        { s with
          handlers :=
            s.handlers ++ [⟨s.handlers.length, ev, sel, cb, s.nextTok, [], false⟩]
          nextTok := s.nextTok + 1 } _
        (stepOK_of_untouched (fun n => rfl) rfl rfl)
        (stepOK_applyEventHandler _ s.handlers.length)
  | remove id =>
    unfold stepOp removeEvent
    dsimp only
    cases hf : s.handlers.findIdx? (fun h => h.id == id) with
    | none => exact stepOK_refl s
    | some idx =>
      exact stepOK_trans (stepOK_cleanupHandler s idx)
        (stepOK_of_untouched (fun n => rfl) rfl rfl)
  | grow d =>
    unfold stepOp
    dsimp only
    exact @stepOK_trans s { s with nodes := s.nodes ++ [d] } _
      (stepOK_of_untouched (fun n => rfl) rfl rfl) (stepOK_rebind _)

theorem stepOK_runOps (s : EvState) (ops : List EOp) :
    StepOK s (runOps s ops) :=
  stepOK_foldl stepOp stepOK_stepOp ops s

theorem SeenInv_init (nodes : List DocNode) : SeenInv (initEv nodes) := by
  refine ⟨fun n ev => ?_, fun n ev hm => ?_, fun n ev => ?_⟩
  · simp [initEv]
  · simp [initEv] at hm
  · simp [initEv, attachedPairs]

theorem filter_length_eq_pairs_count (l : List (Nat × String × Nat))
    (n : Nat) (ev : String) :
    (l.filter (fun a => a.1 == n && a.2.1 == ev)).length =
      List.count ((n, ev)) (l.map (fun a => (a.1, a.2.1))) := by
  induction l with
  | nil => rfl
  | cons a l ih =>
    rw [List.filter_cons, List.map_cons, List.count_cons]
    by_cases h1 : a.1 = n <;> by_cases h2 : a.2.1 = ev <;>
      simp [h1, h2, ih, Prod.ext_iff]

/-! ### C8 and C10 claim theorems -/

/-- C8: from a fresh registry, across every sequence of `onEvent`,
`removeEvent` and growth/rebind operations, each (node, eventType) pair is
natively attached at most once in the registry's whole life — the
element-seen set blocks every duplicate — and in particular at most one
live native listener for the pair exists at any moment. -/
theorem at_most_one_native_listener (nodes : List DocNode) (ops : List EOp)
    (n : Nat) (ev : String) :
    (runOps (initEv nodes) ops).attachLog.count (n, ev) ≤ 1 ∧
    ((runOps (initEv nodes) ops).attached.filter
      (fun a => a.1 == n && a.2.1 == ev)).length ≤ 1 := by
  obtain ⟨h1, _, h3⟩ := (stepOK_runOps (initEv nodes) ops).2.2
    (SeenInv_init nodes)
  refine ⟨h1 n ev, ?_⟩
  rw [filter_length_eq_pairs_count]
  calc List.count ((n, ev)) ((runOps (initEv nodes) ops).attached.map
        (fun a => (a.1, a.2.1)))
      ≤ (runOps (initEv nodes) ops).attachLog.count (n, ev) := h3 n ev
    _ ≤ 1 := h1 n ev

theorem removeEvent_processed (s : EvState) (id : Nat) :
    (removeEvent s id).1.processed = s.processed := by
  unfold removeEvent
  cases hf : s.handlers.findIdx? (fun h => h.id == id) with
  | none => rfl
  | some idx =>
    show (cleanupHandler s idx).processed = s.processed
    unfold cleanupHandler
    cases hh : s.handlers[idx]? with
    | none => rfl
    | some h => by_cases hw : h.windowListener = true <;> simp [hw]

/-- C10: the element-seen set only grows during a registry's life:
`removeEvent` never removes an event type from it, and once a
(node, eventType) pair is marked seen, no later operation — registration,
removal or mutation-triggered rebind — ever performs a new native attach
for that pair, even though the earlier listener may have been detached. -/
theorem seen_set_only_grows (s : EvState) (n : Nat) (ev : String)
    (ops : List EOp) (h : ev ∈ procD s n) :
    ev ∈ procD (runOps s ops) n ∧
    (runOps s ops).attachLog.count (n, ev) = s.attachLog.count (n, ev) ∧
    ∀ id, (removeEvent s id).1.processed = s.processed := by
  have hs := stepOK_runOps s ops
  exact ⟨hs.1 n ev h, hs.2.1 n ev h, removeEvent_processed s⟩

/-- C10 witness for `seen_set_only_grows`: after one registration marked
(node 0, click) seen, removing the handler and registering a new matching
one performs no new native attach — the attach history still records exactly
the single original attach. -/
theorem seen_set_only_grows_witness :
    "click" ∈ procD (runOps (initEv [⟨0, [".x"]⟩]) [.onE "click" ".x" 100]) 0 ∧
    (runOps (runOps (initEv [⟨0, [".x"]⟩]) [.onE "click" ".x" 100])
        [.remove 0, .onE "click" ".x" 101]).attachLog.count (0, "click") =
      (runOps (initEv [⟨0, [".x"]⟩])
        [.onE "click" ".x" 100]).attachLog.count (0, "click") :=
  ⟨by decide,
    (seen_set_only_grows (runOps (initEv [⟨0, [".x"]⟩]) [.onE "click" ".x" 100])
      0 "click" [.remove 0, .onE "click" ".x" 101] (by decide)).2.1⟩

/-! ## C9 — dispatch order -/

theorem set_self {α : Type} (l : List α) (i : Nat) (v : α)
    (h : l[i]? = some v) : l.set i v = l := by
  induction l generalizing i with
  | nil => rfl
  | cons a as ih =>
    cases i with
    | zero =>
      have ha : a = v := by simpa using h
      rw [List.set_cons_zero, ha]
    | succ j =>
      rw [List.set_cons_succ, ih j (by simpa using h)]

/-- The ids of the handler list, in list order. -/
def handlerIds (s : EvState) : List Nat := s.handlers.map (fun h => h.id)

theorem set_preserves_ids (hs : List Handler) (idx : Nat) (h h' : Handler)
    (hh : hs[idx]? = some h) (hid : h'.id = h.id) :
    (hs.set idx h').map (fun x => x.id) = hs.map (fun x => x.id) := by
  rw [List.map_set, hid]
  exact set_self _ _ _ (by
    rw [List.getElem?_map, hh]
    rfl)

theorem applyToElement_ids (s : EvState) (idx el : Nat) :
    handlerIds (applyToElement s idx el) = handlerIds s := by
  cases hh : s.handlers[idx]? with
  | none =>
    unfold applyToElement
    rw [hh]
  | some h =>
    rw [applyToElement_eq s idx el h hh]
    by_cases hp : (procGet s.processed el).isNone = true
    · rw [if_pos hp]
      dsimp only
      by_cases h1 : h.domListeners.contains el = true
      · rw [if_pos h1]; rfl
      · rw [if_neg h1]
        by_cases h2 : ((procGet (s.processed ++ [(el, [])])
            el).getD []).contains h.event = true
        · rw [if_pos h2]; rfl
        · rw [if_neg h2]
          exact set_preserves_ids s.handlers idx h _ hh rfl
    · rw [if_neg hp]
      dsimp only
      by_cases h1 : h.domListeners.contains el = true
      · rw [if_pos h1]
      · rw [if_neg h1]
        by_cases h2 : ((procGet s.processed el).getD []).contains
            h.event = true
        · rw [if_pos h2]
        · rw [if_neg h2]
          exact set_preserves_ids s.handlers idx h _ hh rfl

theorem applyEventHandler_ids (s : EvState) (idx : Nat) :
    handlerIds (applyEventHandler s idx) = handlerIds s := by
  unfold applyEventHandler
  cases hh : s.handlers[idx]? with
  | none => rfl
  | some h =>
    dsimp only
    by_cases hw : (winOrDocEvents.contains h.event &&
        (h.selector == "window" || h.selector == "document")) = true
    · rw [if_pos hw]
      exact set_preserves_ids s.handlers idx h _ hh rfl
    · rw [if_neg hw]
      generalize (s.nodes.filter
        (fun d => d.sels.contains h.selector)).map (fun x => x.nid) = els
      clear hh hw
      induction els generalizing s with
      | nil => rfl
      | cons e es ih =>
        rw [List.foldl_cons]
        rw [ih (applyToElement s idx e), applyToElement_ids]

theorem rebind_ids (s : EvState) : handlerIds (rebind s) = handlerIds s := by
  unfold rebind
  generalize List.range s.handlers.length = is
  induction is generalizing s with
  | nil => rfl
  | cons i is ih =>
    rw [List.foldl_cons]
    cases hh : s.handlers[i]? with
    | none => exact ih s
    | some h =>
      dsimp only
      by_cases hc : (!winOrDocEvents.contains h.event &&
          h.selector != "window" && h.selector != "document") = true
      · rw [if_pos hc, ih (applyEventHandler s i), applyEventHandler_ids]
      · rw [if_neg hc]; exact ih s

/-- `true` exactly on `removeEvent` operations. -/
def isRemoveOp : EOp → Bool
  | .remove _ => true
  | _ => false

/-- The handler ids are exactly `0, 1, …, length-1` as long as no removal
has occurred. -/
def IdsOK (s : EvState) : Prop :=
  handlerIds s = List.range s.handlers.length

theorem IdsOK_stepOp (s : EvState) (op : EOp) (hop : isRemoveOp op = false)
    (h : IdsOK s) : IdsOK (stepOp s op) := by
  cases op with
  | remove id => simp [isRemoveOp] at hop
  | grow d =>
    unfold stepOp
    unfold IdsOK at h ⊢
    dsimp only
    rw [rebind_ids]
    have hlen : (rebind { s with nodes := s.nodes ++ [d] }).handlers.length =
        s.handlers.length := by
      have := rebind_ids { s with nodes := s.nodes ++ [d] }
      unfold handlerIds at this
      have h2 := congrArg List.length this
      simpa using h2
    rw [hlen]
    exact h
  | onE ev sel cb =>
    unfold stepOp onEvent
    dsimp only
    by_cases hs : (!supportedEvents.contains ev) = true
    · rw [if_pos hs]; exact h
    · rw [if_neg hs]
      unfold IdsOK at h ⊢
      dsimp only
      rw [applyEventHandler_ids]
      have hlen : (applyEventHandler
          { s with
            handlers :=
              s.handlers ++ [⟨s.handlers.length, ev, sel, cb, s.nextTok, [], false⟩]
            nextTok := s.nextTok + 1 } s.handlers.length).handlers.length =
          s.handlers.length + 1 := by
        have := applyEventHandler_ids
          { s with
            handlers :=
              s.handlers ++ [⟨s.handlers.length, ev, sel, cb, s.nextTok, [], false⟩]
            nextTok := s.nextTok + 1 } s.handlers.length
        unfold handlerIds at this
        have h2 := congrArg List.length this
        simpa using h2
      rw [hlen]
      unfold handlerIds
      dsimp only
      rw [List.map_append]
      unfold handlerIds at h
      rw [h, List.range_succ]
      rfl

theorem IdsOK_runOps (nodes : List DocNode) (ops : List EOp)
    (hops : ∀ op ∈ ops, isRemoveOp op = false) :
    IdsOK (runOps (initEv nodes) ops) := by
  have hinit : IdsOK (initEv nodes) := rfl
  unfold runOps
  generalize hgen : initEv nodes = s0
  rw [hgen] at hinit
  clear hgen
  induction ops generalizing s0 with
  | nil => exact hinit
  | cons op ops ih =>
    rw [List.foldl_cons]
    exact ih (fun o ho => hops o (List.mem_cons_of_mem _ ho)) _
      (IdsOK_stepOp s0 op (hops op (List.mem_cons_self _ _)) hinit)

/-- C9 (amended): when a native event fires on a node carrying (exactly) one
native listener for it, the fan-out closure invokes every currently
registered handler whose event type and selector match, each exactly once,
synchronously, in handler-list order — i.e. in order of position in the
registration list; and as long as no `removeEvent` has occurred, the ids
along that order are strictly ascending, so dispatch is in ascending
registration-id order.  (With removals, reused ids break ascending id
order: see the counterexample.) -/
theorem dispatch_registration_order (s : EvState) (n : Nat) (ev : String) :
    ((s.attached.filter (fun a => a.1 == n && a.2.1 == ev)).length = 1 →
      dispatch s n ev = (s.handlers.filter (fun h => h.event == ev &&
        nodeMatches s.nodes n h.selector)).map (fun h => h.cb)) ∧
    (∀ nodes ops, (∀ op ∈ ops, isRemoveOp op = false) →
      (((runOps (initEv nodes) ops).handlers.filter
        (fun h => h.event == ev &&
          nodeMatches (runOps (initEv nodes) ops).nodes n h.selector)).map
        (fun h => h.id)).Pairwise (· < ·)) := by
  constructor
  · intro h1
    obtain ⟨a, ha⟩ := List.length_eq_one.mp h1
    unfold dispatch
    rw [ha]
    simp
  · intro nodes ops hops
    have hids := IdsOK_runOps nodes ops hops
    unfold IdsOK handlerIds at hids
    have hsub : ((runOps (initEv nodes) ops).handlers.filter
        (fun h => h.event == ev &&
          nodeMatches (runOps (initEv nodes) ops).nodes n h.selector)).Sublist
        (runOps (initEv nodes) ops).handlers := List.filter_sublist _
    have hmapsub := hsub.map (fun h => h.id)
    rw [hids] at hmapsub
    exact List.Pairwise.sublist hmapsub (List.pairwise_lt_range _)

/-- C9 witness for `dispatch_registration_order`. -/
theorem dispatch_registration_order_witness :
    dispatch (runOps (initEv [⟨0, [".x"]⟩]) [.onE "click" ".x" 100]) 0
        "click" =
      ((runOps (initEv [⟨0, [".x"]⟩]) [.onE "click" ".x" 100]).handlers.filter
        (fun h => h.event == "click" &&
          nodeMatches (runOps (initEv [⟨0, [".x"]⟩])
            [.onE "click" ".x" 100]).nodes 0 h.selector)).map
        (fun h => h.cb) ∧
    (((runOps (initEv [⟨0, [".x"]⟩])
        [.onE "click" ".x" 100, .onE "click" ".x" 101]).handlers.filter
        (fun h => h.event == "click" &&
          nodeMatches (runOps (initEv [⟨0, [".x"]⟩])
            [.onE "click" ".x" 100, .onE "click" ".x" 101]).nodes 0
            h.selector)).map (fun h => h.id)).Pairwise (· < ·) :=
  ⟨(dispatch_registration_order (runOps (initEv [⟨0, [".x"]⟩])
      [.onE "click" ".x" 100]) 0 "click").1 (by decide),
    (dispatch_registration_order (runOps (initEv [⟨0, [".x"]⟩])
      [.onE "click" ".x" 100]) 0 "click").2 [⟨0, [".x"]⟩]
      [.onE "click" ".x" 100, .onE "click" ".x" 101] (by decide)⟩

/-- C9, counterexample to ascending-id dispatch: after removals recycle ids,
one native event on node 1 invokes the three matching handlers in
handler-list order with ids 2, 3, 2 — not ascending (id 3 runs before the
second id 2). -/
theorem dispatch_id_order_counterexample :
    dispatch (runOps (initEv [⟨0, [".x"]⟩, ⟨1, [".y"]⟩])
      [.onE "click" ".x" 100, .onE "click" ".x" 101, .onE "click" ".y" 102,
        .onE "click" ".y" 103, .remove 0, .remove 1, .onE "click" ".y" 104])
      1 "click" = [102, 103, 104] ∧
    ((runOps (initEv [⟨0, [".x"]⟩, ⟨1, [".y"]⟩])
      [.onE "click" ".x" 100, .onE "click" ".x" 101, .onE "click" ".y" 102,
        .onE "click" ".y" 103, .remove 0, .remove 1, .onE "click" ".y" 104]).handlers.filter
        (fun h => h.event == "click" &&
          nodeMatches (runOps (initEv [⟨0, [".x"]⟩, ⟨1, [".y"]⟩])
            [.onE "click" ".x" 100, .onE "click" ".x" 101,
              .onE "click" ".y" 102, .onE "click" ".y" 103, .remove 0,
              .remove 1, .onE "click" ".y" 104]).nodes 1 h.selector)).map
      (fun h => h.id) = [2, 3, 2] ∧
    ¬ (([2, 3, 2] : List Nat).Pairwise (· ≤ ·)) := by
  refine ⟨rfl, rfl, by decide⟩

/-! ## C4 — staged structure of `patchChildren`

`patchChildrenStaged` re-states the algorithm in the spec's staged wording:
normalize every entry; empty new list ⇒ clear in one step; otherwise trim
the tail, then fold the per-index positional cases over the indices of the
new list (no key-based move or reorder anywhere).  The refinement theorem
proves the transliterated `patchChildren` equal to it. -/

/-- Spec stage 1: normalize every entry (VNode/string/number/null) into
canonical VNode form. -/
def specNormalize (cs : List JVal) : List JVal :=
  (cs.map normalizeChild).filter jsTruthy

/-- Spec stage 4, one index `i`: no native child at `i` ⇒ materialize and
append; old entry absent or `hasChanged` ⇒ replace at `i`; text marker ⇒
content already reconciled; else same logical node ⇒ update attributes and
recurse on the children.  A thrown exception carries through untouched. -/
def specIndexStep (nOld nNew : List JVal) (st : TryRes) (i : Nat) : TryRes :=
  match st with
  | .exn k o => .exn k o
  | .ok kids ops =>
    match nNew[i]? with
    | none => .ok kids ops
    | some newChild =>
      match kids[i]? with
      | none =>
        match createFromVNode newChild with
        | .error _ => .exn kids ops
        | .ok d => .ok (kids ++ [d]) (ops + 1)
      | some domNode =>
        if (nOld[i]?).isNone || hasChanged newChild ((nOld[i]?).getD .null) then
          match createFromVNode newChild with
          | .error _ => .exn kids ops
          | .ok d => .ok (kids.set i d) (ops + 1)
        else if tagOf newChild == some "TEXT_NODE" then .ok kids ops
        else
          match domNode with
          | .text _ => .ok kids ops
          | .elem tg p a cn st' dk =>
            let el1 := updateAttributes (.elem tg p a cn st' dk)
              (attrsOf newChild) (attrsOf ((nOld[i]?).getD .null))
            match patchChildren (kidsOfD el1)
                (((childrenOf newChild).map normalizeChild).filter jsTruthy)
                (((childrenOf ((nOld[i]?).getD .null)).map
                  normalizeChild).filter jsTruthy) with
            | .error _ => .exn (kids.set i el1) ops
            | .ok (k', io) => .ok (kids.set i (withKids el1 k')) (ops + io)

/-- The spec-shaped staged reconciliation. -/
def patchChildrenStaged (kids : List DNode) (newChildren oldChildren :
    List JVal) : Except String (List DNode × Nat) :=
  let nNew := specNormalize newChildren
  let nOld := specNormalize oldChildren
  if nNew.length = 0 then .ok ([], kids.length)
  else
    let trimmed := kids.take nNew.length
    let trimOps := kids.length - nNew.length
    match (List.range nNew.length).foldl (specIndexStep nOld nNew)
        (.ok trimmed trimOps) with
    | .ok k o => .ok (k, o)
    | .exn k o =>
      match rebuildKids newChildren with
      | .error e => .error e
      | .ok ds => .ok (ds, o + k.length + ds.length)

theorem trimKids_eq_aux : ∀ (fuel : Nat) (kids : List DNode) (n : Nat),
    kids.length ≤ fuel → trimKids kids n = (kids.take n, kids.length - n)
  | 0, kids, n, h => by
    have hk : kids = [] := List.eq_nil_of_length_eq_zero (Nat.le_zero.mp h)
    subst hk
    rw [trimKids]
    simp
  | (fuel + 1), kids, n, h => by
    rw [trimKids]
    by_cases hl : kids.length > n
    · rw [if_pos hl]
      rw [trimKids_eq_aux fuel kids.dropLast n
        (by rw [List.length_dropLast]; omega)]
      dsimp only
      rw [Prod.mk.injEq]
      constructor
      · rw [List.dropLast_eq_take, List.take_take]
        congr 1
        omega
      · rw [List.length_dropLast]
        omega
    · rw [if_neg hl]
      rw [List.take_of_length_le (by omega)]
      have : kids.length - n = 0 := by omega
      rw [this]

/-- The `while`-trim loop equals take-and-count. -/
theorem trimKids_eq (kids : List DNode) (n : Nat) :
    trimKids kids n = (kids.take n, kids.length - n) :=
  trimKids_eq_aux kids.length kids n le_rfl

theorem foldl_specIndexStep_exn (nOld nNew : List JVal) (l : List Nat)
    (k : List DNode) (o : Nat) :
    l.foldl (specIndexStep nOld nNew) (.exn k o) = .exn k o := by
  induction l with
  | nil => rfl
  | cons i l ih => rw [List.foldl_cons]; exact ih

theorem patchLoop_eq_fold (nOld nNew : List JVal) : ∀ (fuel i : Nat)
    (kids : List DNode) (ops : Nat), nNew.length - i = fuel →
    patchLoop nOld nNew i kids ops =
      (List.range' i fuel).foldl (specIndexStep nOld nNew) (.ok kids ops)
  | 0, i, kids, ops, h => by
    rw [patchLoop, dif_neg (by omega)]
    rfl
  | (fuel + 1), i, kids, ops, h => by
    have hi : i < nNew.length := by omega
    rw [patchLoop, dif_pos hi, List.range'_succ, List.foldl_cons]
    have hgetE : nNew[i]? = some nNew[i] := List.getElem?_eq_getElem hi
    unfold specIndexStep
    rw [hgetE]
    dsimp only
    cases hk : kids[i]? with
    | none =>
      cases hc : createFromVNode nNew[i] with
      | error e =>
        dsimp only
        exact (foldl_specIndexStep_exn nOld nNew _ _ _).symm
      | ok d => exact patchLoop_eq_fold nOld nNew fuel (i + 1) _ _ (by omega)
    | some domNode =>
      dsimp only
      by_cases hchg : ((nOld[i]?).isNone ||
          hasChanged nNew[i] ((nOld[i]?).getD .null)) = true
      · rw [if_pos hchg, if_pos hchg]
        cases hc : createFromVNode nNew[i] with
        | error e =>
          dsimp only
          exact (foldl_specIndexStep_exn nOld nNew _ _ _).symm
        | ok d => exact patchLoop_eq_fold nOld nNew fuel (i + 1) _ _ (by omega)
      · rw [if_neg hchg, if_neg hchg]
        by_cases ht : (tagOf nNew[i] == some "TEXT_NODE") = true
        · rw [dif_pos ht, if_pos ht]
          exact patchLoop_eq_fold nOld nNew fuel (i + 1) _ _ (by omega)
        · rw [dif_neg ht, if_neg ht]
          cases domNode with
          | text s =>
            exact patchLoop_eq_fold nOld nNew fuel (i + 1) _ _ (by omega)
          | elem tg p a cn st' dk =>
            dsimp only
            cases hpc : patchChildren
                (kidsOfD (updateAttributes (.elem tg p a cn st' dk)
                  (attrsOf nNew[i]) (attrsOf ((nOld[i]?).getD .null))))
                (((childrenOf nNew[i]).map normalizeChild).filter jsTruthy)
                (((childrenOf ((nOld[i]?).getD .null)).map
                  normalizeChild).filter jsTruthy) with
            | error e =>
              dsimp only
              exact (foldl_specIndexStep_exn nOld nNew _ _ _).symm
            | ok pr =>
              cases pr with
              | mk k' io =>
                exact patchLoop_eq_fold nOld nNew fuel (i + 1) _ _ (by omega)

/-- C4: `patchChildren` is exactly the staged algorithm the spec describes —
it first normalizes every entry (VNode, string, number or null) into
canonical VNode form with primitives and null as text markers; an empty
normalized new list clears all native children in one step; otherwise it
trims native children beyond the new list's length from the tail and then,
for each index of the new list in ascending order, appends a fresh
materialization when no native child exists there, replaces on a missing
old entry or `hasChanged`, and otherwise recursively updates attributes and
children in place — purely positional, with no key-based move or reorder. -/
theorem patchChildren_staged_refinement (kids : List DNode)
    (new old : List JVal) :
    patchChildren kids new old = patchChildrenStaged kids new old := by
  rw [patchChildren_eq_body]
  unfold patchChildrenStaged patchBody specNormalize
  by_cases h0 : ((new.map normalizeChild).filter jsTruthy).length = 0
  · rw [if_pos h0, if_pos h0]
  · rw [if_neg h0, if_neg h0]
    rw [trimKids_eq]
    rw [patchLoop_eq_fold _ _ ((new.map normalizeChild).filter
      jsTruthy).length 0 _ _ (by omega)]
    rw [List.range_eq_range']

/-! ## C7 — patching a tree against itself -/

/-- Key list of a JS attribute object has no duplicates (always true of a
real JS object literal; assoc lists can violate it). -/
def nodupKeys : List (String × AVal) → Bool
  | [] => true
  | (k, _) :: rest => !(rest.any (·.1 == k)) && nodupKeys rest

mutual
/-- Well-formed virtual tree for the idempotence theorem: attribute maps
are JS objects (duplicate-free keys) and no children list contains `null`
(the materializer skips `null` while the patcher normalizes it into a text
marker, so a `null` child breaks idempotence — see the counterexample). -/
def wfT : JVal → Bool
  | .vnode t a cs =>
    if t == "TEXT_NODE" then true else nodupKeys a && wfL cs
  | _ => true

/-- `wfT` on every entry of a children list, and no entry is `null`. -/
def wfL : List JVal → Bool
  | [] => true
  | c :: cs => !(c matches .null) && wfT c && wfL cs
end

/-- Materialization of a children list as `createFromVNode`'s child loop
produces it: `null` skipped, primitives coerced to text leaves. -/
def matList : List JVal → Except String (List DNode)
  | [] => .ok []
  | c :: cs =>
    match c with
    | .null => matList cs
    | .str v =>
      match matList cs with
      | .error e => .error e
      | .ok ds => .ok (.text v :: ds)
    | .num v =>
      match matList cs with
      | .error e => .error e
      | .ok ds => .ok (.text (toString v) :: ds)
    | c =>
      match createFromVNode c with
      | .error e => .error e
      | .ok d =>
        match matList cs with
        | .error e => .error e
        | .ok ds => .ok (d :: ds)

theorem materializeKids_elem (cs : List JVal) :
    ∀ (t : String) (p : List (String × AVal)) (a : List (String × String))
      (c : String) (st : List (String × String)) (dk : List DNode),
    materializeKids (.elem t p a c st dk) cs =
      (matList cs).map (fun ds => .elem t p a c st (dk ++ ds)) := by
  induction cs with
  | nil =>
    intro t p a c st dk
    rw [materializeKids, matList]
    show Except.ok (DNode.elem t p a c st dk) =
      Except.ok (DNode.elem t p a c st (dk ++ []))
    rw [List.append_nil]
  | cons x cs ih =>
    intro t p a c st dk
    cases x with
    | null =>
      rw [materializeKids, matList]
      exact ih t p a c st dk
    | str v =>
      rw [materializeKids, matList]
      rw [show kidsOfD (.elem t p a c st dk) = dk from rfl,
        show withKids (.elem t p a c st dk) (dk ++ [.text v]) =
          .elem t p a c st (dk ++ [.text v]) from rfl]
      rw [ih]
      cases matList cs with
      | error e => rfl
      | ok ds => simp [Except.map, List.append_assoc]
    | num v =>
      rw [materializeKids, matList]
      rw [show kidsOfD (.elem t p a c st dk) = dk from rfl,
        show withKids (.elem t p a c st dk) (dk ++ [.text (toString v)]) =
          .elem t p a c st (dk ++ [.text (toString v)]) from rfl]
      rw [ih]
      cases matList cs with
      | error e => rfl
      | ok ds => simp [Except.map, List.append_assoc]
    | vnode tg at' ch =>
      rw [materializeKids, matList] <;> try (intros; contradiction)
      cases createFromVNode (.vnode tg at' ch) with
      | error e => rfl
      | ok d =>
        dsimp only
        rw [show kidsOfD (.elem t p a c st dk) = dk from rfl,
          show withKids (.elem t p a c st dk) (dk ++ [d]) =
            .elem t p a c st (dk ++ [d]) from rfl]
        rw [ih]
        cases matList cs with
        | error e => rfl
        | ok ds => simp [Except.map, List.append_assoc]
    | badObj tok =>
      rw [materializeKids, matList] <;> try (intros; contradiction)
      cases createFromVNode (.badObj tok) with
      | error e => rfl
      | ok d =>
        dsimp only
        rw [show kidsOfD (.elem t p a c st dk) = dk from rfl,
          show withKids (.elem t p a c st dk) (dk ++ [d]) =
            .elem t p a c st (dk ++ [d]) from rfl]
        rw [ih]
        cases matList cs with
        | error e => rfl
        | ok ds => simp [Except.map, List.append_assoc]

theorem setAttribute_shape (t : String) (p : List (String × AVal))
    (a : List (String × String)) (c : String) (st : List (String × String))
    (ch : List DNode) (k : String) (v : AVal) :
    ∃ p' a' c' st', setAttribute (.elem t p a c st ch) k v =
      .elem t p' a' c' st' ch := by
  unfold setAttribute
  dsimp only
  by_cases h1 : (jsStartsWith k "on" && (v matches .fn _)) = true
  · rw [if_pos h1]; exact ⟨_, _, _, _, rfl⟩
  · rw [if_neg h1]
    by_cases h2 : (k == "className") = true
    · rw [if_pos h2]; exact ⟨_, _, _, _, rfl⟩
    · rw [if_neg h2]
      by_cases h3 : (k == "style") = true
      · rw [if_pos h3]
        cases v <;> exact ⟨_, _, _, _, rfl⟩
      · rw [if_neg h3]
        by_cases h4 : (nativeProps.contains k || p.any (·.1 == k)) = true
        · rw [if_pos h4]; exact ⟨_, _, _, _, rfl⟩
        · rw [if_neg h4]; exact ⟨_, _, _, _, rfl⟩

theorem foldl_setAttribute_shape (attrs : List (String × AVal)) :
    ∀ (t : String) (p : List (String × AVal)) (a : List (String × String))
      (c : String) (st : List (String × String)) (ch : List DNode),
    ∃ p' a' c' st',
      attrs.foldl (fun e kv => setAttribute e kv.1 kv.2)
        (.elem t p a c st ch) = .elem t p' a' c' st' ch := by
  induction attrs with
  | nil => intro t p a c st ch; exact ⟨p, a, c, st, rfl⟩
  | cons kv attrs ih =>
    intro t p a c st ch
    rw [List.foldl_cons]
    obtain ⟨p1, a1, c1, st1, h1⟩ := setAttribute_shape t p a c st ch kv.1 kv.2
    rw [h1]
    exact ih t p1 a1 c1 st1 ch

/-- Shape of materializing an element node: same tag, children = the
materialized children list. -/
theorem createFromVNode_elem (t : String) (a : List (String × AVal))
    (cs : List JVal) (ht : (t == "TEXT_NODE") = false) :
    ∃ P A C ST, createFromVNode (.vnode t a cs) =
      (matList cs).map (fun ds => .elem t P A C ST ds) := by
  rw [createFromVNode]
  rw [ht]
  simp only [Bool.false_eq_true, if_false]
  obtain ⟨p', a', c', st', hb⟩ := foldl_setAttribute_shape a t [] [] "" [] []
  rw [hb, materializeKids_elem]
  exact ⟨p', a', c', st', by simp⟩

theorem foldl_id {α β : Type} (f : β → α → β) :
    ∀ (l : List α) (b : β), (∀ x ∈ l, ∀ c, f c x = c) → l.foldl f b = b
  | [], _, _ => rfl
  | x :: xs, b, h => by
    rw [List.foldl_cons, h x (List.mem_cons_self _ _)]
    exact foldl_id f xs b (fun y hy c => h y (List.mem_cons_of_mem _ hy) c)

theorem getAssoc_self (a : List (String × AVal)) (hn : nodupKeys a = true) :
    ∀ k v, (k, v) ∈ a → getAssoc a k = some v := by
  induction a with
  | nil => intro k v h; cases h
  | cons e a ih =>
    obtain ⟨k0, v0⟩ := e
    rw [nodupKeys, Bool.and_eq_true] at hn
    intro k v hm
    rcases List.mem_cons.mp hm with he | hm'
    · obtain ⟨hk, hv⟩ := Prod.mk.injEq .. ▸ he
      subst hk; subst hv
      unfold getAssoc
      rw [List.find?_cons]
      simp
    · by_cases hk : (k0 == k) = true
      · exfalso
        have hkeq : k0 = k := by simpa using hk
        subst hkeq
        have hany : a.any (·.1 == k0) = true :=
          List.any_eq_true.mpr ⟨(k0, v), hm', by simp⟩
        rw [hany] at hn
        simp at hn
      · unfold getAssoc at ih ⊢
        rw [List.find?_cons]
        have hne : (((k0, v0) : String × AVal).1 == k) = false := by
          simpa using hk
        rw [hne]
        exact ih hn.2 k v hm'

/-- `updateAttributes` with identical (JS-object) attribute maps touches
nothing: the minimal-write guarantee on the unchanged path. -/
theorem updateAttributes_self (el : DNode) (a : List (String × AVal))
    (hn : nodupKeys a = true) : updateAttributes el a a = el := by
  unfold updateAttributes
  have h1 : a.foldl
      (fun e kv => if a.any (·.1 == kv.1) then e else removeOldAttr e kv.1)
      el = el := by
    apply foldl_id
    intro kv hkv c
    have hany : a.any (·.1 == kv.1) = true :=
      List.any_eq_true.mpr ⟨kv, hkv, by simp⟩
    rw [hany]
    simp
  rw [h1]
  apply foldl_id
  intro kv hkv c
  obtain ⟨k, v⟩ := kv
  rw [getAssoc_self a hn k v hkv]
  dsimp only
  rw [if_pos (jsEqA_refl v)]

theorem wfL_cons (c : JVal) (cs : List JVal) (h : wfL (c :: cs) = true) :
    (c matches .null) = false ∧ wfT c = true ∧ wfL cs = true := by
  cases c with
  | null =>
    rw [show wfL (.null :: cs) = false from rfl] at h
    cases h
  | str v =>
    rw [show wfL (.str v :: cs) = (wfT (.str v) && wfL cs) from rfl,
      Bool.and_eq_true] at h
    exact ⟨rfl, h.1, h.2⟩
  | num v =>
    rw [show wfL (.num v :: cs) = (wfT (.num v) && wfL cs) from rfl,
      Bool.and_eq_true] at h
    exact ⟨rfl, h.1, h.2⟩
  | vnode t a ch =>
    rw [show wfL (.vnode t a ch :: cs) =
      (wfT (.vnode t a ch) && wfL cs) from rfl, Bool.and_eq_true] at h
    exact ⟨rfl, h.1, h.2⟩
  | badObj tok =>
    rw [show wfL (.badObj tok :: cs) = (wfT (.badObj tok) && wfL cs) from rfl,
      Bool.and_eq_true] at h
    exact ⟨rfl, h.1, h.2⟩

theorem matList_cons_null (cs : List JVal) :
    matList (.null :: cs) = matList cs := rfl

theorem matList_cons_str (v : String) (cs : List JVal) :
    matList (.str v :: cs) =
      match matList cs with
      | .error e => .error e
      | .ok ds => .ok (.text v :: ds) := rfl

theorem matList_cons_num (v : Int) (cs : List JVal) :
    matList (.num v :: cs) =
      match matList cs with
      | .error e => .error e
      | .ok ds => .ok (.text (toString v) :: ds) := rfl

theorem matList_cons_vnode (t : String) (a : List (String × AVal))
    (ch : List JVal) (cs : List JVal) :
    matList (.vnode t a ch :: cs) =
      match createFromVNode (.vnode t a ch) with
      | .error e => .error e
      | .ok d =>
        match matList cs with
        | .error e => .error e
        | .ok ds => .ok (d :: ds) := rfl

theorem matList_cons_badObj (tok : Nat) (cs : List JVal) :
    matList (.badObj tok :: cs) =
      .error "Invalid VNode: missing tag property" := rfl

theorem createFromVNode_textWrapper (v : String) :
    createFromVNode (.vnode "TEXT_NODE" [] [.str v]) = .ok (.text v) := rfl

theorem matList_norm (cs : List JVal) (h : wfL cs = true) :
    matList (cs.map normalizeChild) = matList cs := by
  induction cs with
  | nil => rfl
  | cons c cs ih =>
    obtain ⟨hnull, _, hrest⟩ := wfL_cons c cs h
    cases c with
    | null => simp at hnull
    | str v =>
      rw [List.map_cons,
        show normalizeChild (.str v) = .vnode "TEXT_NODE" [] [.str v] from rfl,
        matList_cons_vnode, createFromVNode_textWrapper, matList_cons_str,
        ih hrest]
    | num v =>
      rw [List.map_cons,
        show normalizeChild (.num v) =
          .vnode "TEXT_NODE" [] [.str (toString v)] from rfl,
        matList_cons_vnode, createFromVNode_textWrapper, matList_cons_num,
        ih hrest]
    | vnode t a ch =>
      rw [List.map_cons,
        show normalizeChild (.vnode t a ch) = .vnode t a ch from rfl,
        matList_cons_vnode, matList_cons_vnode, ih hrest]
    | badObj tok =>
      rw [List.map_cons,
        show normalizeChild (.badObj tok) = .badObj tok from rfl,
        matList_cons_badObj, matList_cons_badObj]

theorem matList_length (cs : List JVal) (kids : List DNode)
    (hw : wfL cs = true) (hm : matList cs = .ok kids) :
    kids.length = cs.length := by
  induction cs generalizing kids with
  | nil =>
    rw [show matList [] = .ok [] from rfl] at hm
    cases hm
    rfl
  | cons c cs ih =>
    obtain ⟨hnull, _, hrest⟩ := wfL_cons c cs hw
    cases c with
    | null => simp at hnull
    | str v =>
      rw [matList_cons_str] at hm
      cases hml : matList cs with
      | error e => rw [hml] at hm; cases hm
      | ok ds =>
        rw [hml] at hm
        cases hm
        simp [ih ds hrest hml]
    | num v =>
      rw [matList_cons_num] at hm
      cases hml : matList cs with
      | error e => rw [hml] at hm; cases hm
      | ok ds =>
        rw [hml] at hm
        cases hm
        simp [ih ds hrest hml]
    | vnode t a ch =>
      rw [matList_cons_vnode] at hm
      cases hcv : createFromVNode (.vnode t a ch) with
      | error e => rw [hcv] at hm; cases hm
      | ok d =>
        rw [hcv] at hm
        cases hml : matList cs with
        | error e => rw [hml] at hm; cases hm
        | ok ds =>
          rw [hml] at hm
          cases hm
          simp [ih ds hrest hml]
    | badObj tok =>
      rw [matList_cons_badObj] at hm
      cases hm

theorem matList_getElem (cs : List JVal) (kids : List DNode)
    (hw : wfL cs = true) (hm : matList cs = .ok kids) :
    ∀ j, j < cs.length → ∃ cj d, cs[j]? = some cj ∧ kids[j]? = some d ∧
      createFromVNode (normalizeChild cj) = .ok d := by
  induction cs generalizing kids with
  | nil => intro j hj; simp at hj
  | cons c cs ih =>
    obtain ⟨hnull, _, hrest⟩ := wfL_cons c cs hw
    intro j hj
    cases c with
    | null => simp at hnull
    | str v =>
      rw [matList_cons_str] at hm
      cases hml : matList cs with
      | error e => rw [hml] at hm; cases hm
      | ok ds =>
        rw [hml] at hm
        cases hm
        cases j with
        | zero => exact ⟨.str v, .text v, by simp, by simp, rfl⟩
        | succ i =>
          obtain ⟨cj, d, h1, h2, h3⟩ := ih ds hrest hml i (by simpa using hj)
          exact ⟨cj, d, by simpa using h1, by simpa using h2, h3⟩
    | num v =>
      rw [matList_cons_num] at hm
      cases hml : matList cs with
      | error e => rw [hml] at hm; cases hm
      | ok ds =>
        rw [hml] at hm
        cases hm
        cases j with
        | zero => exact ⟨.num v, .text (toString v), by simp, by simp, rfl⟩
        | succ i =>
          obtain ⟨cj, d, h1, h2, h3⟩ := ih ds hrest hml i (by simpa using hj)
          exact ⟨cj, d, by simpa using h1, by simpa using h2, h3⟩
    | vnode t a ch =>
      rw [matList_cons_vnode] at hm
      cases hcv : createFromVNode (.vnode t a ch) with
      | error e => rw [hcv] at hm; cases hm
      | ok d =>
        rw [hcv] at hm
        cases hml : matList cs with
        | error e => rw [hml] at hm; cases hm
        | ok ds =>
          rw [hml] at hm
          cases hm
          cases j with
          | zero => exact ⟨.vnode t a ch, d, by simp, by simp, hcv⟩
          | succ i =>
            obtain ⟨cj, d', h1, h2, h3⟩ := ih ds hrest hml i
              (by simpa using hj)
            exact ⟨cj, d', by simpa using h1, by simpa using h2, h3⟩
    | badObj tok =>
      rw [matList_cons_badObj] at hm
      cases hm

theorem foldl_fixed {α β : Type} (f : β → α → β) :
    ∀ (l : List α) (b : β), (∀ x ∈ l, f b x = b) → l.foldl f b = b
  | [], _, _ => rfl
  | x :: xs, b, h => by
    rw [List.foldl_cons, h x (List.mem_cons_self _ _)]
    exact foldl_fixed f xs b (fun y hy => h y (List.mem_cons_of_mem _ hy))

theorem norm_not_null (c : JVal) :
    (normalizeChild c matches .null) = false := by
  cases c <;> rfl

theorem wfL_cons_eq (c : JVal) (cs : List JVal)
    (h : (c matches .null) = false) :
    wfL (c :: cs) = (wfT c && wfL cs) := by
  cases c with
  | null => simp at h
  | str v => rfl
  | num v => rfl
  | vnode t a ch => rfl
  | badObj tok => rfl

theorem wfT_norm (c : JVal) (h : wfT c = true) :
    wfT (normalizeChild c) = true := by
  cases c with
  | null => rfl
  | str v => rfl
  | num v => rfl
  | vnode t a ch => exact h
  | badObj tok => rfl

theorem wfL_norm (cs : List JVal) (h : wfL cs = true) :
    wfL (cs.map normalizeChild) = true := by
  induction cs with
  | nil => rfl
  | cons c cs ih =>
    obtain ⟨hnull, hwf, hrest⟩ := wfL_cons c cs h
    rw [List.map_cons, wfL_cons_eq _ _ (norm_not_null c), Bool.and_eq_true]
    exact ⟨wfT_norm c hwf, ih hrest⟩

theorem wfL_of_mem (cs : List JVal) (hw : wfL cs = true) :
    ∀ c ∈ cs, c ≠ JVal.null ∧ wfT c = true := by
  induction cs with
  | nil => intro c hc; cases hc
  | cons x cs ih =>
    obtain ⟨h1, h2, h3⟩ := wfL_cons x cs hw
    intro c hc
    rcases List.mem_cons.mp hc with rfl | hc'
    · refine ⟨?_, h2⟩
      intro hx
      subst hx
      dsimp only at h1
      cases h1
    · exact ih h3 c hc'

theorem jsizeList_eq_zero (cs : List JVal) (h : jsizeList cs = 0) :
    cs = [] := by
  cases cs with
  | nil => rfl
  | cons c cs =>
    rw [jsizeList] at h
    have := jsize_pos c
    omega

/-- Patching a materialized children list against itself is the identity
and performs zero structural mutations. -/
theorem patchChildren_self_aux : ∀ (fuel : Nat) (cs : List JVal)
    (kids : List DNode), jsizeList cs ≤ fuel → wfL cs = true →
    matList cs = .ok kids → patchChildren kids cs cs = .ok (kids, 0)
  | 0, cs, kids, hsz, hw, hm => by
    have hcs : cs = [] := jsizeList_eq_zero cs (Nat.le_zero.mp hsz)
    subst hcs
    rw [show matList [] = Except.ok ([] : List DNode) from rfl] at hm
    cases hm
    rw [patchChildren_eq_body]
    rfl
  | (fuel + 1), cs, kids, hsz, hw, hm => by
    by_cases hnil : cs = []
    · subst hnil
      rw [show matList [] = Except.ok ([] : List DNode) from rfl] at hm
      cases hm
      rw [patchChildren_eq_body]
      rfl
    · have hlen0 : ¬ cs.length = 0 := by
        intro h
        exact hnil (List.eq_nil_of_length_eq_zero h)
      have hlen : kids.length = cs.length := matList_length cs kids hw hm
      rw [patchChildren_staged_refinement]
      simp only [patchChildrenStaged, specNormalize]
      rw [filter_truthy_normalize cs, List.length_map]
      rw [if_neg hlen0]
      rw [show kids.take cs.length = kids from
        List.take_of_length_le (by omega)]
      rw [show kids.length - cs.length = 0 from by omega]
      have hfold : (List.range cs.length).foldl
          (specIndexStep (cs.map normalizeChild) (cs.map normalizeChild))
          (.ok kids 0) = .ok kids 0 := by
        apply foldl_fixed
        intro j hjr
        have hj : j < cs.length := List.mem_range.mp hjr
        obtain ⟨cj, d, hcj, hd, hcv⟩ := matList_getElem cs kids hw hm j hj
        have hnnj : (cs.map normalizeChild)[j]? =
            some (normalizeChild cj) := by
          rw [List.getElem?_map, hcj]
          rfl
        have hcjmem : cj ∈ cs := List.mem_iff_getElem?.mpr ⟨j, hcj⟩
        obtain ⟨hcjnull, hcjwf⟩ := wfL_of_mem cs hw cj hcjmem
        have hjsize : jsize cj ≤ jsizeList cs := by
          obtain ⟨hlt, hEq⟩ := List.getElem?_eq_some_iff.mp hcj
          calc jsize cj = jsize cs[j] := by rw [hEq]
            _ ≤ jsizeList cs := jsize_getElem_le cs j hlt
        unfold specIndexStep
        dsimp only
        rw [hnnj]
        dsimp only
        rw [hd]
        dsimp only
        cases cj with
        | null => exact absurd rfl hcjnull
        | badObj tok =>
          rw [show normalizeChild (.badObj tok) = .badObj tok from rfl,
            show createFromVNode (.badObj tok) =
              .error "Invalid VNode: missing tag property" from rfl] at hcv
          cases hcv
        | str v =>
          rw [show normalizeChild (.str v) =
            .vnode "TEXT_NODE" [] [.str v] from rfl]
          rw [show ((some (JVal.vnode "TEXT_NODE" [] [.str v])).isNone ||
            hasChanged (.vnode "TEXT_NODE" [] [.str v])
              ((some (JVal.vnode "TEXT_NODE" [] [.str v])).getD .null)) =
            false from by
              simp [hasChanged_self_vnode]]
          rw [show (tagOf (.vnode "TEXT_NODE" [] [.str v]) ==
            some "TEXT_NODE") = true from rfl]
          simp
        | num v =>
          rw [show normalizeChild (.num v) =
            .vnode "TEXT_NODE" [] [.str (toString v)] from rfl]
          rw [show ((some (JVal.vnode "TEXT_NODE" [] [.str (toString v)])).isNone ||
            hasChanged (.vnode "TEXT_NODE" [] [.str (toString v)])
              ((some (JVal.vnode "TEXT_NODE" [] [.str (toString v)])).getD
                .null)) = false from by
              simp [hasChanged_self_vnode]]
          rw [show (tagOf (.vnode "TEXT_NODE" [] [.str (toString v)]) ==
            some "TEXT_NODE") = true from rfl]
          simp
        | vnode t a ch =>
          rw [show normalizeChild (.vnode t a ch) = .vnode t a ch from rfl]
            at hcv ⊢
          rw [show ((some (JVal.vnode t a ch)).isNone ||
            hasChanged (.vnode t a ch)
              ((some (JVal.vnode t a ch)).getD .null)) = false from by
              simp [hasChanged_self_vnode]]
          simp only [Bool.false_eq_true, if_false]
          by_cases hT : (t == "TEXT_NODE") = true
          · rw [if_pos (show (tagOf (.vnode t a ch) ==
              some "TEXT_NODE") = true from by simpa [tagOf] using hT)]
          · rw [if_neg (show ¬ (tagOf (.vnode t a ch) ==
              some "TEXT_NODE") = true from by simpa [tagOf] using hT)]
            obtain ⟨P, A, C, ST, hshape⟩ := createFromVNode_elem t a ch
              (by simpa using hT)
            rw [hshape] at hcv
            cases hml : matList ch with
            | error e =>
              rw [hml] at hcv
              simp [Except.map] at hcv
            | ok ds =>
              rw [hml] at hcv
              have hd' : d = .elem t P A C ST ds := by
                simpa [Except.map] using hcv.symm
              subst hd'
              dsimp only
              have hwf2 : (nodupKeys a && wfL ch) = true := by
                rw [show wfT (.vnode t a ch) =
                  if t == "TEXT_NODE" then true
                  else (nodupKeys a && wfL ch) from rfl] at hcjwf
                rw [if_neg (by simp [hT])] at hcjwf
                exact hcjwf
              rw [Bool.and_eq_true] at hwf2
              rw [show (some (JVal.vnode t a ch)).getD JVal.null =
                JVal.vnode t a ch from rfl]
              rw [show attrsOf (JVal.vnode t a ch) = a from rfl]
              rw [updateAttributes_self _ a hwf2.1]
              rw [show childrenOf (JVal.vnode t a ch) = ch from rfl,
                filter_truthy_normalize]
              rw [show kidsOfD (.elem t P A C ST ds) = ds from rfl]
              have hfuel : jsizeList (ch.map normalizeChild) ≤ fuel := by
                rw [jsizeList_map_normalize]
                have hjs : jsize (JVal.vnode t a ch) = 2 + jsizeList ch := by
                  rw [show jsize (JVal.vnode t a ch) =
                    if t == "TEXT_NODE" then 1
                    else 2 + jsizeList ch from rfl, if_neg (by simp [hT])]
                omega
              have hinner := patchChildren_self_aux fuel
                (ch.map normalizeChild) ds hfuel
                (wfL_norm ch hwf2.2)
                (by rw [matList_norm ch hwf2.2]; exact hml)
              rw [hinner]
              dsimp only
              rw [show withKids (.elem t P A C ST ds) ds =
                .elem t P A C ST ds from rfl]
              rw [set_self kids j _ hd]
      rw [hfold]

/-- C7 (amended): for every virtual tree `T` whose children lists contain no
`null` entries and whose attribute maps are JS objects, and every native
parent whose child at index 0 is the materialization of `T`,
`patch(parent, T, T, 0)` performs zero structural native mutations and
leaves the parent's children untouched.  (A `null` child entry breaks this:
see the counterexample.) -/
theorem patch_identical_tree (T : JVal) (d : DNode) (kids : List DNode)
    (hW : wfT T = true) (hM : createFromVNode T = .ok d)
    (h0 : kids[0]? = some d) : patch kids T T 0 = .ok (kids, 0) := by
  cases T with
  | null => cases hM
  | badObj tok => cases hM
  | str v =>
    unfold patch
    by_cases hv : (v == "") = true
    · rw [if_pos (by simp [jsTruthy, hv]; simpa using hv)]
    · rw [if_neg (by simp [jsTruthy]; simpa using hv)]
      rw [if_neg (by simp [jsTruthy]; simpa using hv)]
      rw [if_neg (by simp [jsTruthy]; simpa using hv)]
      rw [if_neg (show ¬ (hasChanged (.str v) (.str v)) = true from by
        simp [hasChanged, typeofJ])]
      rw [if_neg (show ¬ ((tagOf (.str v)).getD "" != "") = true from by
        simp [tagOf])]
  | num v =>
    unfold patch
    by_cases hv : (v == 0) = true
    · rw [if_pos (by simp [jsTruthy]; simpa using hv)]
    · rw [if_neg (by simp [jsTruthy]; simpa using hv)]
      rw [if_neg (by simp [jsTruthy]; simpa using hv)]
      rw [if_neg (by simp [jsTruthy]; simpa using hv)]
      rw [if_neg (show ¬ (hasChanged (.num v) (.num v)) = true from by
        simp [hasChanged, typeofJ])]
      rw [if_neg (show ¬ ((tagOf (.num v)).getD "" != "") = true from by
        simp [tagOf])]
  | vnode t a cs =>
    unfold patch
    rw [if_neg (by simp [jsTruthy])]
    rw [if_neg (by simp [jsTruthy])]
    rw [if_neg (by simp [jsTruthy])]
    rw [if_neg (show ¬ (hasChanged (.vnode t a cs) (.vnode t a cs)) = true
      from by simp [hasChanged_self_vnode])]
    by_cases hT : (t == "TEXT_NODE") = true
    · have hd : ∃ s, d = .text s := by
        rw [createFromVNode, hT, if_pos rfl] at hM
        dsimp only at hM
        cases hM
        exact ⟨_, rfl⟩
      obtain ⟨s, rfl⟩ := hd
      by_cases ht0 : (t == "") = true
      · rw [if_neg (show ¬ ((tagOf (.vnode t a cs)).getD "" != "") = true
          from by simp [tagOf]; simpa using ht0)]
      · rw [if_pos (show ((tagOf (.vnode t a cs)).getD "" != "") = true
          from by simp [tagOf]; simpa using ht0)]
        rw [h0]
    · by_cases ht0 : (t == "") = true
      · rw [if_neg (show ¬ ((tagOf (.vnode t a cs)).getD "" != "") = true
          from by simp [tagOf]; simpa using ht0)]
      · rw [if_pos (show ((tagOf (.vnode t a cs)).getD "" != "") = true
          from by simp [tagOf]; simpa using ht0)]
        obtain ⟨P, A, C, ST, hshape⟩ := createFromVNode_elem t a cs
          (by simpa using hT)
        rw [hshape] at hM
        cases hml : matList cs with
        | error e =>
          rw [hml] at hM
          simp [Except.map] at hM
        | ok ds =>
          rw [hml] at hM
          have hd' : d = .elem t P A C ST ds := by
            simpa [Except.map] using hM.symm
          subst hd'
          rw [h0]
          dsimp only
          have hwf2 : (nodupKeys a && wfL cs) = true := by
            rw [show wfT (.vnode t a cs) =
              if t == "TEXT_NODE" then true
              else (nodupKeys a && wfL cs) from rfl] at hW
            rw [if_neg (by simp [hT])] at hW
            exact hW
          rw [Bool.and_eq_true] at hwf2
          rw [show attrsOf (.vnode t a cs) = a from rfl,
            updateAttributes_self _ a hwf2.1]
          rw [show childrenOf (.vnode t a cs) = cs from rfl]
          rw [List.filter_eq_self.mpr (fun c _ => validChild_true c)]
          rw [show kidsOfD (.elem t P A C ST ds) = ds from rfl]
          rw [patchChildren_self_aux (jsizeList cs) cs ds le_rfl hwf2.2 hml]
          dsimp only
          rw [show withKids (.elem t P A C ST ds) ds =
            .elem t P A C ST ds from rfl]
          rw [set_self kids 0 _ h0]

/-- C7, counterexample to the unconditional claim: `div [null, "a"]`
materializes to a single text child (`createFromVNode` skips `null`), but
`patch` normalizes the `null` entry into an empty text marker, so
self-patching against the freshly materialized DOM appends a duplicate
text node and reports one structural mutation instead of zero. -/
theorem patch_null_child_counterexample :
    createFromVNode (.vnode "div" [] [.null, .str "a"]) =
      .ok (.elem "div" [] [] "" [] [.text "a"]) ∧
    patch [.elem "div" [] [] "" [] [.text "a"]]
        (.vnode "div" [] [.null, .str "a"])
        (.vnode "div" [] [.null, .str "a"]) 0 =
      .ok ([.elem "div" [] [] "" [] [.text "a", .text "a"]], 1) := by
  refine ⟨rfl, ?_⟩
  have hpc : patchChildren [DNode.text "a"] [JVal.null, JVal.str "a"]
      [JVal.null, JVal.str "a"] =
      .ok ([DNode.text "a", DNode.text "a"], 1) := by
    rw [patchChildren_staged_refinement]
    rfl
  show (match patchChildren [DNode.text "a"] [JVal.null, JVal.str "a"]
      [JVal.null, JVal.str "a"] with
    | Except.error e => Except.error e
    | Except.ok (k', ops) =>
      Except.ok (([DNode.elem "div" [] [] "" [] [DNode.text "a"]]).set 0
        (withKids (DNode.elem "div" [] [] "" [] [DNode.text "a"]) k'),
        ops)) =
    Except.ok ([DNode.elem "div" [] [] "" []
      [DNode.text "a", DNode.text "a"]], 1)
  rw [hpc]
  rfl

theorem patch_identical_tree_witness :
    wfT (.vnode "div" [("id", .s "a")] [.str "x", .vnode "span" [] []]) =
      true ∧
    createFromVNode
        (.vnode "div" [("id", .s "a")] [.str "x", .vnode "span" [] []]) =
      .ok (.elem "div" [("id", AVal.s "a")] [] "" []
        [.text "x", .elem "span" [] [] "" [] []]) ∧
    patch [.elem "div" [("id", AVal.s "a")] [] "" []
        [.text "x", .elem "span" [] [] "" [] []]]
      (.vnode "div" [("id", .s "a")] [.str "x", .vnode "span" [] []])
      (.vnode "div" [("id", .s "a")] [.str "x", .vnode "span" [] []]) 0 =
      .ok ([.elem "div" [("id", AVal.s "a")] [] "" []
        [.text "x", .elem "span" [] [] "" [] []]], 0) :=
  ⟨rfl, rfl, patch_identical_tree _ _ _ rfl rfl rfl⟩

end Shed
